import Mathlib

/-!
Verification of the PNG aspect-ratio padding engine of the ghlogo worker
(source: src/index.ts).  Bytes are modelled as natural numbers below 256 in
lists; JavaScript typed-array writes are modelled by an explicit in-place
byte-range overwrite (setBytes); DataView 32-bit reads that can raise a
RangeError are modelled with Option; the engine entry point padPng returns
Except Unit (Option output): Except.error models a thrown exception,
Except.ok none models the null ("not applicable") result.
The deflate and inflate primitives are platform code (CompressionStream /
DecompressionStream), not part of the repository; padPng is parametrised
over them.
-/

/-- The 8-byte PNG magic signature (source constant PNG_SIGNATURE). -/
def pngSig : List Nat := [137, 80, 78, 71, 13, 10, 26, 10]

/-- A parsed chunk: 4-character type tag (as char codes) and payload bytes
(source interface PngChunk). -/
structure PngChunk where
  type : List Nat
  data : List Nat
deriving DecidableEq, Repr

/-- Char codes of the string IHDR. -/
def ihdrType : List Nat := [73, 72, 68, 82]

/-- Char codes of the string IDAT. -/
def idatType : List Nat := [73, 68, 65, 84]

/-- Big-endian 32-bit read at an in-range offset, reading four bytes
(DataView.getUint32 in-bounds behaviour; out-of-range positions read 0,
which never happens at the call sites thanks to prior length checks). -/
def readU32d (l : List Nat) (off : Nat) : Nat :=
  l.getD off 0 * 16777216 + l.getD (off + 1) 0 * 65536 +
    l.getD (off + 2) 0 * 256 + l.getD (off + 3) 0

/-- DataView.getUint32: big-endian 32-bit read, RangeError (none) when the
four bytes do not fit in the buffer. -/
def readU32 (l : List Nat) (off : Nat) : Option Nat :=
  if off + 4 ≤ l.length then some (readU32d l off) else none

/-- Big-endian 4-byte encoding of a 32-bit value
(DataView.setUint32 stores its argument modulo 2 to the 32). -/
def u32be (n : Nat) : List Nat :=
  [n / 16777216 % 256, n / 65536 % 256, n / 256 % 256, n % 256]

/-- Typed-array write out.set(src, off): overwrite bytes off .. off+src.length
of buf with src (in-bounds behaviour). -/
def setBytes (buf : List Nat) (off : Nat) (src : List Nat) : List Nat :=
  buf.take off ++ src ++ buf.drop (off + src.length)

/-- The chunk type tag as written by buildPng: charCodeAt of the first four
characters; a missing character gives NaN which a Uint8Array stores as 0, and
char codes are stored modulo 256. -/
def typeBytes4 (t : List Nat) : List Nat :=
  (t.take 4 ++ List.replicate (4 - t.length) 0).map (· % 256)

/-- One shift-xor step of the reflected CRC-32 polynomial 0xEDB88320
(the inner loop body of the crc32Table initializer). -/
def crcStep (c : Nat) : Nat :=
  if c % 2 = 1 then 0xedb88320 ^^^ (c / 2) else c / 2

/-- Entry n of the precomputed CRC-32 table: eight polynomial steps. -/
def crc32Table (n : Nat) : Nat := crcStep^[8] n

/-- One byte of the table-driven CRC-32 update (loop body of crc32). -/
def crc32Update (crc b : Nat) : Nat :=
  crc32Table ((crc ^^^ b) % 256) ^^^ crc / 256

/-- CRC-32 of a byte list: initial value 0xFFFFFFFF, table-driven update,
final complement (source function crc32 over a whole buffer). -/
def crc32 (data : List Nat) : Nat :=
  (data.foldl crc32Update 0xffffffff) ^^^ 0xffffffff

/-- crc32(data, start, end) of the source: CRC-32 over the byte range
start .. end (in-bounds behaviour). -/
def crc32Range (data : List Nat) (start endIdx : Nat) : Nat :=
  crc32 ((data.drop start).take (endIdx - start))

/-- The chunk-walking loop of parsePngChunks from a given offset.  Each
iteration reads a 4-byte big-endian length (which raises a RangeError, here
Except.error, when fewer than 4 bytes remain), takes the type and payload by
clamped subarray, and advances by 12 + length. -/
def parseChunksFrom (buf : List Nat) (offset : Nat) : Except Unit (List PngChunk) :=
  if h : offset < buf.length then
    match readU32 buf offset with
    | none => .error ()
    | some len =>
        let t := (buf.drop (offset + 4)).take 4
        let d := (buf.drop (offset + 8)).take len
        (parseChunksFrom buf (offset + 12 + len)).map (PngChunk.mk t d :: ·)
  else
    .ok []
termination_by buf.length - offset
decreasing_by omega

/-- parsePngChunks: skip the 8-byte signature, then walk the chunk stream. -/
def parsePngChunks (buf : List Nat) : Except Unit (List PngChunk) :=
  parseChunksFrom buf 8

/-- Total output size computed by buildPng: 8 signature bytes plus
12 + payload length per chunk. -/
def chunksSize (chunks : List PngChunk) : Nat :=
  chunks.foldl (fun s c => s + 12 + c.data.length) 0

/-- The chunk-writing loop of buildPng: write the big-endian length, the type
tag, the payload, then the CRC-32 computed over the type-and-payload range
just written, and advance by 12 + length. -/
def buildPngGo (chunks : List PngChunk) (out : List Nat) (offset : Nat) : List Nat :=
  match chunks with
  | [] => out
  | c :: rest =>
      let len := c.data.length
      let out1 := setBytes out offset (u32be len)
      let out2 := setBytes out1 (offset + 4) (typeBytes4 c.type)
      let out3 := setBytes out2 (offset + 8) c.data
      let crcVal := crc32Range out3 (offset + 4) (offset + 8 + len)
      let out4 := setBytes out3 (offset + 8 + len) (u32be crcVal)
      buildPngGo rest out4 (offset + 12 + len)

/-- buildPng: allocate the output, write the signature, then serialize every
chunk in order. -/
def buildPng (chunks : List PngChunk) : List Nat :=
  buildPngGo chunks (setBytes (List.replicate (8 + chunksSize chunks) 0) 0 pngSig) 8

/-- The serialized form of one chunk (used to state what buildPng produces):
big-endian payload length, 4-byte type tag, payload, big-endian CRC-32 over
the type tag followed by the payload. -/
def encodeChunk (c : PngChunk) : List Nat :=
  u32be c.data.length ++ typeBytes4 c.type ++ c.data ++
    u32be (crc32 (typeBytes4 c.type ++ c.data))

/-- Serialized form of a whole chunk sequence. -/
def encodedAll (chunks : List PngChunk) : List Nat :=
  (chunks.map encodeChunk).flatten

/-- The Paeth predictor (source function paeth): with p = a + b - c, return
the neighbour among a, b, c closest to p, ties resolved a, then b. -/
def paeth (a b c : Nat) : Nat :=
  let p : Int := (a : Int) + b - c
  let pa := (p - a).natAbs
  let pb := (p - b).natAbs
  let pc := (p - c).natAbs
  if pa ≤ pb ∧ pa ≤ pc then a else if pb ≤ pc then b else c

/-- One byte of the unfilter switch (source switch on filterType): tags 0-4
are None, Sub, Up, Average, Paeth; any other tag passes the raw byte through
unchanged.  Additions wrap modulo 256; (a+b) is halved by floor. -/
def unfilterByteVal (flt raw a b c : Nat) : Nat :=
  match flt with
  | 0 => raw
  | 1 => (raw + a) % 256
  | 2 => (raw + b) % 256
  | 3 => (raw + (a + b) / 2) % 256
  | 4 => (raw + paeth a b c) % 256
  | _ => raw

/-- The inner unfilter loop over one row: acc holds the bytes of the current
row already reconstructed; a reads back into acc at distance bpp, b and c
read the previous reconstructed row (the empty list for the first row, so
both read as 0 there, as in the source where row = 0 forces b = c = 0). -/
def unfilterRowGo (flt bpp : Nat) (prevRow : List Nat) : List Nat → List Nat → List Nat
  | [], acc => acc
  | raw :: rest, acc =>
      let i := acc.length
      let a := if bpp ≤ i then acc.getD (i - bpp) 0 else 0
      let b := prevRow.getD i 0
      let c := if bpp ≤ i then prevRow.getD (i - bpp) 0 else 0
      unfilterRowGo flt bpp prevRow rest (acc ++ [unfilterByteVal flt raw a b c])

/-- The outer unfilter loop (source loop over row): for each of the remaining
n rows starting at index row, read the filter tag at row * rowBytes and the
pixelBytes raw bytes after it, reconstruct the row against the previous
reconstructed row, and continue. -/
def unfilterAllGo (d : List Nat) (rowBytes pixelBytes bpp : Nat) :
    Nat → Nat → List Nat → List (List Nat)
  | 0, _, _ => []
  | n + 1, row, prev =>
      let flt := d.getD (row * rowBytes) 0
      let raws := (d.drop (row * rowBytes + 1)).take pixelBytes
      let r := unfilterRowGo flt bpp prev raws []
      r :: unfilterAllGo d rowBytes pixelBytes bpp n (row + 1) r

/-- Reconstructed pixel matrix: height rows of pixelBytes bytes, decoded
sequentially from the top (source buffer named unfiltered). -/
def unfilterAll (d : List Nat) (height rowBytes pixelBytes bpp : Nat) : List (List Nat) :=
  unfilterAllGo d rowBytes pixelBytes bpp height 0 []

/-- Row r of the reconstructed pixel matrix, defined by direct recursion on
the row index; unfilterAll is proved to agree with it row by row. -/
def rowAt (d : List Nat) (rowBytes pixelBytes bpp : Nat) : Nat → List Nat
  | 0 => unfilterRowGo (d.getD 0 0) bpp [] ((d.drop 1).take pixelBytes) []
  | r + 1 =>
      unfilterRowGo (d.getD ((r + 1) * rowBytes) 0) bpp
        (rowAt d rowBytes pixelBytes bpp r)
        ((d.drop ((r + 1) * rowBytes + 1)).take pixelBytes) []

/-- Sequential row writer: write each block at the running position and
advance by rowBytes (models the newData.set calls of the three row loops; the
filter-byte store followed by the pixel store of the lower loops is one
combined block write, see newDataOf). -/
def writeBlocks (buf : List Nat) (pos L : Nat) : List (List Nat) → List Nat × Nat
  | [] => (buf, pos)
  | b :: rest => writeBlocks (setBytes buf pos b) (pos + L) L rest

/-- Assembly of the new scanline buffer (source buffer newData): allocate
(topRows + height + bottomRows) * rowBytes zero bytes, write topRows copies
of the white row, then each reconstructed original row behind a 0 filter
byte, then bottomRows copies of the last reconstructed row behind a 0 filter
byte. -/
def newDataOf (whiteRow : List Nat) (topRows height : Nat)
    (unfiltered : List (List Nat)) (lastRow : List Nat)
    (bottomRows rowBytes : Nat) : List Nat :=
  let totalRows := topRows + height + bottomRows
  let buf0 := List.replicate (totalRows * rowBytes) 0
  let s1 := writeBlocks buf0 0 rowBytes (List.replicate topRows whiteRow)
  let s2 := writeBlocks s1.1 s1.2 rowBytes
    ((List.range height).map (fun r => 0 :: unfiltered.getD r []))
  let s3 := writeBlocks s2.1 s2.2 rowBytes
    (List.replicate bottomRows (0 :: lastRow))
  s3.1

/-- targetHeight = Math.ceil(width * ratioH / ratioW); exact for the 32-bit
widths and small ratios involved, expressed as a natural ceiling division
(requires ratioW > 0 to match the JavaScript computation). -/
def targetHeightOf (width ratioW ratioH : Nat) : Nat :=
  (width * ratioH + ratioW - 1) / ratioW

/-- topRows = Math.ceil(paddingRows / 2). -/
def topRowsOf (paddingRows : Nat) : Nat := (paddingRows + 1) / 2

/-- bottomRows = paddingRows - topRows. -/
def bottomRowsOf (paddingRows : Nat) : Nat := paddingRows - topRowsOf paddingRows

/-- Bytes per pixel by color type (source switch): grayscale 1, RGB 3,
grayscale+alpha 2, RGBA 4; anything else is unsupported. -/
def bppOf (colorType : Nat) : Option Nat :=
  match colorType with
  | 0 => some 1
  | 2 => some 3
  | 4 => some 2
  | 6 => some 4
  | _ => none

/-- Chunk rebuild loop of padPng: every IHDR chunk is replaced by the patched
header, the first IDAT is replaced by the single recompressed IDAT, later
IDATs are dropped, all other chunks pass through in order. -/
def rebuildChunks (newIhdr compressed : List Nat) :
    List PngChunk → Bool → List PngChunk
  | [], _ => []
  | c :: rest, inserted =>
      if c.type = ihdrType then
        PngChunk.mk ihdrType newIhdr :: rebuildChunks newIhdr compressed rest inserted
      else if c.type = idatType then
        if inserted then rebuildChunks newIhdr compressed rest true
        else PngChunk.mk idatType compressed :: rebuildChunks newIhdr compressed rest true
      else
        c :: rebuildChunks newIhdr compressed rest inserted

/-- Body of padPng after the signature check and chunk parse, straight-line
translation of the source: find the IHDR, check its length, read the header
fields, bail (none) on interlace, indexed color, non-8-bit depth, height
already at least the target, or unsupported color type; otherwise decompress
the concatenated IDAT payloads, unfilter, build the padded scanline buffer,
recompress, patch the header height, and rebuild the chunk stream. -/
def padPngCore (inflate deflate : List Nat → List Nat)
    (chunks : List PngChunk) (ratioW ratioH : Nat) : Option (List Nat) :=
  match chunks.find? (fun c => c.type = ihdrType) with
  | none => none
  | some ihdrChunk =>
      if ihdrChunk.data.length < 13 then none
      else
        let width := readU32d ihdrChunk.data 0
        let height := readU32d ihdrChunk.data 4
        let bitDepth := ihdrChunk.data.getD 8 0
        let colorType := ihdrChunk.data.getD 9 0
        let interlace := ihdrChunk.data.getD 12 0
        if interlace ≠ 0 ∨ colorType = 3 then none
        else if bitDepth ≠ 8 then none
        else
          let targetHeight := targetHeightOf width ratioW ratioH
          if targetHeight ≤ height then none
          else
            let paddingRows := targetHeight - height
            match bppOf colorType with
            | none => none
            | some bpp =>
                let rowBytes := 1 + width * bpp
                let idatConcat :=
                  ((chunks.filter (fun c => c.type = idatType)).map
                    (fun c => c.data)).flatten
                let decompressed := inflate idatConcat
                let whitePadRow := 0 :: List.replicate (width * bpp) 255
                let topRows := topRowsOf paddingRows
                let bottomRows := paddingRows - topRows
                let pixelBytes := width * bpp
                let unfiltered := unfilterAll decompressed height rowBytes pixelBytes bpp
                let lastRow := unfiltered.getD (height - 1) []
                let newData := newDataOf whitePadRow topRows height unfiltered
                  lastRow bottomRows rowBytes
                let compressed := deflate newData
                let newIhdrData := setBytes ihdrChunk.data 4 (u32be targetHeight)
                some (buildPng (rebuildChunks newIhdrData compressed chunks false))

/-- The engine entry point padPng: reject a bad signature with null (ok none),
let a chunk-parse RangeError propagate (error), otherwise run the body. -/
def padPng (inflate deflate : List Nat → List Nat)
    (pngBytes : List Nat) (ratioW ratioH : Nat) : Except Unit (Option (List Nat)) :=
  if pngBytes.take 8 = pngSig then
    match parsePngChunks pngBytes with
    | .error e => .error e
    | .ok chunks => .ok (padPngCore inflate deflate chunks ratioW ratioH)
  else
    .ok none

/-- Observation function for stating header claims: parse an output byte
stream the way the engine itself reads headers and return the declared
(width, height) of its first IHDR chunk. -/
def declaredDims (bytes : List Nat) : Option (Nat × Nat) :=
  match parsePngChunks bytes with
  | .error _ => none
  | .ok chunks =>
      match chunks.find? (fun c => c.type = ihdrType) with
      | none => none
      | some c => some (readU32d c.data 0, readU32d c.data 4)

/-- Observation helper: byte (r, i) of the reconstructed pixel matrix. -/
def pixelAt (d : List Nat) (height rowBytes pixelBytes bpp r i : Nat) : Nat :=
  ((unfilterAll d height rowBytes pixelBytes bpp).getD r []).getD i 0

/-- Body of padPng with the decompression failure path modelled: the source's
zlibDecompress throws on a malformed deflate stream and padPng has no
internal try/catch, so the exception propagates out of the engine.  Here
inflate returns Except and its error is forwarded; deflate stays total, as
CompressionStream accepts any byte input.  padPngCore is the specialization
of this definition to an inflate that never fails (padPngCoreE_total). -/
def padPngCoreE (inflate : List Nat → Except Unit (List Nat))
    (deflate : List Nat → List Nat)
    (chunks : List PngChunk) (ratioW ratioH : Nat) :
    Except Unit (Option (List Nat)) :=
  match chunks.find? (fun c => c.type = ihdrType) with
  | none => .ok none
  | some ihdrChunk =>
      if ihdrChunk.data.length < 13 then .ok none
      else
        let width := readU32d ihdrChunk.data 0
        let height := readU32d ihdrChunk.data 4
        let bitDepth := ihdrChunk.data.getD 8 0
        let colorType := ihdrChunk.data.getD 9 0
        let interlace := ihdrChunk.data.getD 12 0
        if interlace ≠ 0 ∨ colorType = 3 then .ok none
        else if bitDepth ≠ 8 then .ok none
        else
          let targetHeight := targetHeightOf width ratioW ratioH
          if targetHeight ≤ height then .ok none
          else
            let paddingRows := targetHeight - height
            match bppOf colorType with
            | none => .ok none
            | some bpp =>
                let rowBytes := 1 + width * bpp
                let idatConcat :=
                  ((chunks.filter (fun c => c.type = idatType)).map
                    (fun c => c.data)).flatten
                match inflate idatConcat with
                | .error e => .error e
                | .ok decompressed =>
                    let whitePadRow := 0 :: List.replicate (width * bpp) 255
                    let topRows := topRowsOf paddingRows
                    let bottomRows := paddingRows - topRows
                    let pixelBytes := width * bpp
                    let unfiltered :=
                      unfilterAll decompressed height rowBytes pixelBytes bpp
                    let lastRow := unfiltered.getD (height - 1) []
                    let newData := newDataOf whitePadRow topRows height unfiltered
                      lastRow bottomRows rowBytes
                    let compressed := deflate newData
                    let newIhdrData := setBytes ihdrChunk.data 4 (u32be targetHeight)
                    .ok (some (buildPng
                      (rebuildChunks newIhdrData compressed chunks false)))

/-- The engine entry point with the decompression failure path modelled:
reject a bad signature with null (ok none), let a chunk-parse RangeError or
an inflate failure propagate (error), otherwise run the body. -/
def padPngE (inflate : List Nat → Except Unit (List Nat))
    (deflate : List Nat → List Nat)
    (pngBytes : List Nat) (ratioW ratioH : Nat) : Except Unit (Option (List Nat)) :=
  if pngBytes.take 8 = pngSig then
    match parsePngChunks pngBytes with
    | .error e => .error e
    | .ok chunks => padPngCoreE inflate deflate chunks ratioW ratioH
  else
    .ok none

/-! ## Generic byte-buffer lemmas -/

lemma length_u32be (n : Nat) : (u32be n).length = 4 := rfl

lemma length_typeBytes4 (t : List Nat) : (typeBytes4 t).length = 4 := by
  simp only [typeBytes4, List.length_map, List.length_append, List.length_take,
    List.length_replicate]
  omega

lemma typeBytes4_eq_self {t : List Nat} (hlen : t.length = 4)
    (hlt : ∀ b ∈ t, b < 256) : typeBytes4 t = t := by
  unfold typeBytes4
  rw [hlen]
  simp only [Nat.sub_self, List.replicate_zero, List.append_nil,
    List.take_of_length_le (le_of_eq hlen)]
  conv_rhs => rw [← List.map_id t]
  exact List.map_congr_left fun b hb => Nat.mod_eq_of_lt (hlt b hb)

lemma length_setBytes {buf src : List Nat} {off : Nat}
    (h : off + src.length ≤ buf.length) :
    (setBytes buf off src).length = buf.length := by
  simp only [setBytes, List.length_append, List.length_take, List.length_drop]
  omega

lemma setBytes_comp {buf s1 s2 : List Nat} {off : Nat} (h : off ≤ buf.length) :
    setBytes (setBytes buf off s1) (off + s1.length) s2 =
      setBytes buf off (s1 ++ s2) := by
  have hAs : (buf.take off ++ s1).length = off + s1.length := by
    simp only [List.length_append, List.length_take]; omega
  simp only [setBytes, ← List.append_assoc]
  rw [List.take_left' hAs]
  rw [← List.drop_drop (n := s2.length) (m := off + s1.length)]
  rw [List.drop_left' hAs]
  rw [List.drop_drop, List.length_append]
  congr 2
  omega

lemma take_setBytes {buf src : List Nat} {off k : Nat} (hk : k ≤ off)
    (h : off ≤ buf.length) : (setBytes buf off src).take k = buf.take k := by
  have hA : (buf.take off).length = off := by
    simp only [List.length_take]; omega
  simp only [setBytes, List.append_assoc]
  rw [List.take_append_eq_append_take, hA]
  rw [show k - off = 0 from by omega, List.take_zero, List.append_nil]
  rw [List.take_take, Nat.min_eq_left hk]

lemma drop_setBytes {buf src : List Nat} {off : Nat} (h : off ≤ buf.length) :
    (setBytes buf off src).drop (off + src.length) =
      buf.drop (off + src.length) := by
  have hAs : (buf.take off ++ src).length = off + src.length := by
    simp only [List.length_append, List.length_take]; omega
  simp only [setBytes, ← List.append_assoc]
  exact List.drop_left' hAs

lemma drop_setBytes_at {buf src : List Nat} {off : Nat} (h : off ≤ buf.length) :
    (setBytes buf off src).drop off = src ++ buf.drop (off + src.length) := by
  have hA : (buf.take off).length = off := by
    simp only [List.length_take]; omega
  simp only [setBytes, List.append_assoc]
  exact List.drop_left' hA

lemma take_setBytes_full {buf src : List Nat} {off : Nat} (h : off ≤ buf.length) :
    (setBytes buf off src).take (off + src.length) = buf.take off ++ src := by
  have hAs : (buf.take off ++ src).length = off + src.length := by
    simp only [List.length_append, List.length_take]; omega
  simp only [setBytes, ← List.append_assoc]
  exact List.take_left' hAs

lemma slice_setBytes {buf src : List Nat} {off j m : Nat}
    (h : off ≤ buf.length) (hjm : j + m ≤ src.length) :
    ((setBytes buf off src).drop (off + j)).take m = (src.drop j).take m := by
  rw [← List.drop_drop, drop_setBytes_at h]
  rw [List.drop_append_eq_append_drop]
  rw [show j - src.length = 0 from by omega, List.drop_zero]
  rw [List.take_append_eq_append_take]
  rw [show m - (src.drop j).length = 0 from by
      simp only [List.length_drop]; omega,
    List.take_zero, List.append_nil]

/-! ## Word read/write lemmas -/

lemma getD_drop (l : List Nat) (n m d : Nat) :
    (l.drop n).getD m d = l.getD (n + m) d := by
  simp [List.getD_eq_getElem?_getD, List.getElem?_drop]

lemma readU32d_drop (l : List Nat) (off : Nat) :
    readU32d l off = readU32d (l.drop off) 0 := by
  simp [readU32d, getD_drop]

lemma readU32d_u32be (n : Nat) (h : n < 4294967296) (rest : List Nat) :
    readU32d (u32be n ++ rest) 0 = n := by
  simp only [u32be, readU32d, List.cons_append, List.getD_cons_zero,
    List.getD_cons_succ, List.nil_append]
  omega

lemma readU32_some {l : List Nat} {off : Nat} (h : off + 4 ≤ l.length) :
    readU32 l off = some (readU32d l off) := by
  simp [readU32, h]

/-! ## buildPng: the offset-writing loop produces the concatenated layout -/

lemma encodeChunk_length (c : PngChunk) :
    (encodeChunk c).length = 12 + c.data.length := by
  simp only [encodeChunk, List.length_append, length_u32be, length_typeBytes4]
  omega

lemma encodedAll_nil : encodedAll [] = [] := rfl

lemma encodedAll_cons (c : PngChunk) (rest : List PngChunk) :
    encodedAll (c :: rest) = encodeChunk c ++ encodedAll rest := by
  simp [encodedAll]

lemma chunksSize_aux (chunks : List PngChunk) (a : Nat) :
    chunks.foldl (fun s c => s + 12 + c.data.length) a =
      a + chunks.foldl (fun s c => s + 12 + c.data.length) 0 := by
  induction chunks generalizing a with
  | nil => simp
  | cons c rest ih =>
      simp only [List.foldl_cons]
      rw [ih, ih (0 + 12 + c.data.length)]
      omega

lemma chunksSize_eq_length (chunks : List PngChunk) :
    chunksSize chunks = (encodedAll chunks).length := by
  induction chunks with
  | nil => rfl
  | cons c rest ih =>
      have h1 : chunksSize (c :: rest) = (12 + c.data.length) + chunksSize rest := by
        unfold chunksSize
        rw [List.foldl_cons, chunksSize_aux]
      rw [h1, encodedAll_cons, List.length_append, encodeChunk_length, ih]

lemma buildPngGo_eq : ∀ (chunks : List PngChunk) (out : List Nat) (offset : Nat),
    offset + (encodedAll chunks).length ≤ out.length →
    buildPngGo chunks out offset =
      out.take offset ++ encodedAll chunks ++
        out.drop (offset + (encodedAll chunks).length) := by
  intro chunks
  induction chunks with
  | nil =>
      intro out offset h
      simp [buildPngGo, encodedAll]
  | cons c rest ih =>
      intro out offset h
      have hlen : (encodedAll (c :: rest)).length =
          12 + c.data.length + (encodedAll rest).length := by
        rw [encodedAll_cons, List.length_append, encodeChunk_length]
      have hoff : offset ≤ out.length := by omega
      have hec : offset + (encodeChunk c).length ≤ out.length := by
        rw [encodeChunk_length]; omega
      simp only [buildPngGo]
      have e1 : setBytes (setBytes out offset (u32be c.data.length))
          (offset + 4) (typeBytes4 c.type) =
          setBytes out offset (u32be c.data.length ++ typeBytes4 c.type) := by
        simpa [length_u32be] using
          @setBytes_comp out (u32be c.data.length) (typeBytes4 c.type) offset hoff
      rw [e1]
      have e2 : setBytes (setBytes out offset
            (u32be c.data.length ++ typeBytes4 c.type)) (offset + 8) c.data =
          setBytes out offset
            (u32be c.data.length ++ typeBytes4 c.type ++ c.data) := by
        have h2 := @setBytes_comp out (u32be c.data.length ++ typeBytes4 c.type)
          c.data offset hoff
        have hl : (u32be c.data.length ++ typeBytes4 c.type).length = 8 := by
          simp only [List.length_append, length_u32be, length_typeBytes4]
        rw [hl] at h2
        exact h2
      rw [e2]
      have hs3 : (u32be c.data.length ++ typeBytes4 c.type ++ c.data).length =
          8 + c.data.length := by
        simp only [List.length_append, length_u32be, length_typeBytes4]
      have e3 : crc32Range
          (setBytes out offset (u32be c.data.length ++ typeBytes4 c.type ++ c.data))
          (offset + 4) (offset + 8 + c.data.length) =
          crc32 (typeBytes4 c.type ++ c.data) := by
        unfold crc32Range
        have harith : offset + 8 + c.data.length - (offset + 4) =
            4 + c.data.length := by omega
        rw [harith]
        rw [slice_setBytes hoff (by rw [hs3]; omega)]
        rw [List.append_assoc, List.drop_left' (length_u32be c.data.length)]
        rw [List.take_of_length_le (by simp [length_typeBytes4])]
      rw [e3]
      have e4 : setBytes (setBytes out offset
            (u32be c.data.length ++ typeBytes4 c.type ++ c.data))
            (offset + 8 + c.data.length) (u32be (crc32 (typeBytes4 c.type ++ c.data))) =
          setBytes out offset (encodeChunk c) := by
        have := @setBytes_comp out
          (u32be c.data.length ++ typeBytes4 c.type ++ c.data)
          (u32be (crc32 (typeBytes4 c.type ++ c.data))) offset hoff
        rw [hs3] at this
        rw [show offset + 8 + c.data.length = offset + (8 + c.data.length) from by omega]
        rw [this]
        rfl
      rw [e4]
      have hlen4 : (setBytes out offset (encodeChunk c)).length = out.length :=
        length_setBytes hec
      have hrec : (offset + 12 + c.data.length) + (encodedAll rest).length ≤
          (setBytes out offset (encodeChunk c)).length := by
        rw [hlen4]; omega
      rw [ih _ _ hrec]
      have hoffec : offset + 12 + c.data.length = offset + (encodeChunk c).length := by
        rw [encodeChunk_length]; omega
      have etake : (setBytes out offset (encodeChunk c)).take
          (offset + 12 + c.data.length) = out.take offset ++ encodeChunk c := by
        rw [hoffec]
        exact take_setBytes_full hoff
      have edrop : (setBytes out offset (encodeChunk c)).drop
          (offset + 12 + c.data.length + (encodedAll rest).length) =
          out.drop (offset + (encodedAll (c :: rest)).length) := by
        rw [hoffec]
        rw [← List.drop_drop, drop_setBytes hoff, List.drop_drop]
        congr 1
        rw [hlen, encodeChunk_length]
        omega
      rw [etake, edrop, encodedAll_cons]
      simp [List.append_assoc]

lemma buildPng_eq (chunks : List PngChunk) :
    buildPng chunks = pngSig ++ encodedAll chunks := by
  unfold buildPng
  have hsig : (pngSig : List Nat).length = 8 := rfl
  have hbuf : (List.replicate (8 + chunksSize chunks) 0 : List Nat).length =
      8 + chunksSize chunks := List.length_replicate _ _
  have hset : (setBytes (List.replicate (8 + chunksSize chunks) 0) 0 pngSig).length =
      8 + chunksSize chunks := by
    rw [length_setBytes] <;> rw [hbuf] <;> simp [hsig]
  have hb : 8 + (encodedAll chunks).length ≤
      (setBytes (List.replicate (8 + chunksSize chunks) 0) 0 pngSig).length := by
    rw [hset, chunksSize_eq_length]
  rw [buildPngGo_eq _ _ _ hb]
  have e1 : (setBytes (List.replicate (8 + chunksSize chunks) 0) 0 pngSig).take 8 =
      pngSig := by
    have := @slice_setBytes (List.replicate (8 + chunksSize chunks) 0)
      pngSig 0 0 8 (by simp) (by simp [hsig])
    simpa using this
  have e2 : (setBytes (List.replicate (8 + chunksSize chunks) 0) 0 pngSig).drop
      (8 + (encodedAll chunks).length) = [] := by
    apply List.drop_eq_nil_of_le
    rw [hset, chunksSize_eq_length]
  rw [e1, e2, List.append_nil]

/-! ## Chunk parse round trip -/

lemma parseChunksFrom_end {buf : List Nat} {offset : Nat} (h : buf.length ≤ offset) :
    parseChunksFrom buf offset = .ok [] := by
  rw [parseChunksFrom]
  simp [Nat.not_lt.mpr h]

lemma parse_encodedAll : ∀ (chunks : List PngChunk) (pre : List Nat),
    (∀ c ∈ chunks, typeBytes4 c.type = c.type ∧ c.data.length < 4294967296) →
    parseChunksFrom (pre ++ encodedAll chunks) pre.length = .ok chunks := by
  intro chunks
  induction chunks with
  | nil =>
      intro pre hh
      apply parseChunksFrom_end
      simp [encodedAll]
  | cons c rest ih =>
      intro pre hh
      obtain ⟨hty, hlt⟩ := hh c (List.mem_cons_self c rest)
      have hecl : (encodeChunk c).length = 12 + c.data.length := encodeChunk_length c
      have hbuf : pre ++ encodedAll (c :: rest) =
          pre ++ (encodeChunk c ++ encodedAll rest) := by
        rw [encodedAll_cons]
      have hlenbuf : (pre ++ encodedAll (c :: rest)).length =
          pre.length + 12 + c.data.length + (encodedAll rest).length := by
        rw [hbuf]
        simp only [List.length_append, hecl]
        omega
      have hofflt : pre.length < (pre ++ encodedAll (c :: rest)).length := by
        rw [hlenbuf]; omega
      have hdrop0 : (pre ++ encodedAll (c :: rest)).drop pre.length =
          encodeChunk c ++ encodedAll rest := by
        rw [hbuf]; exact List.drop_left' rfl
      have hshape : encodeChunk c ++ encodedAll rest =
          u32be c.data.length ++ (typeBytes4 c.type ++ (c.data ++
            (u32be (crc32 (typeBytes4 c.type ++ c.data)) ++ encodedAll rest))) := by
        unfold encodeChunk
        simp [List.append_assoc]
      have hread : readU32 (pre ++ encodedAll (c :: rest)) pre.length =
          some c.data.length := by
        rw [readU32_some (by rw [hlenbuf]; omega)]
        rw [readU32d_drop, hdrop0, hshape, readU32d_u32be _ hlt]
      have htfield : ((pre ++ encodedAll (c :: rest)).drop (pre.length + 4)).take 4 =
          c.type := by
        rw [← List.drop_drop, hdrop0, hshape,
          List.drop_left' (length_u32be c.data.length),
          List.take_left' (length_typeBytes4 c.type), hty]
      have hdfield : ((pre ++ encodedAll (c :: rest)).drop (pre.length + 8)).take
          c.data.length = c.data := by
        rw [← List.drop_drop, hdrop0, hshape]
        have h8 : (u32be c.data.length ++ typeBytes4 c.type).length = 8 := by
          simp only [List.length_append, length_u32be, length_typeBytes4]
        rw [← List.append_assoc, List.drop_left' h8, List.take_left' rfl]
      have hrec : parseChunksFrom (pre ++ encodedAll (c :: rest))
          (pre.length + 12 + c.data.length) = .ok rest := by
        have hpe : (pre ++ encodeChunk c).length = pre.length + 12 + c.data.length := by
          simp only [List.length_append, hecl]; omega
        have hassoc : pre ++ encodedAll (c :: rest) =
            (pre ++ encodeChunk c) ++ encodedAll rest := by
          rw [hbuf, List.append_assoc]
        rw [← hpe, hassoc]
        exact ih (pre ++ encodeChunk c) (fun x hx => hh x (List.mem_cons_of_mem c hx))
      rw [parseChunksFrom, dif_pos hofflt, hread]
      simp only [htfield, hdfield, hrec, Except.map]

/-! ## Scanline filter codec lemmas -/

lemma unfilterRowGo_length (flt bpp : Nat) (prevRow : List Nat) :
    ∀ (raws acc : List Nat),
      (unfilterRowGo flt bpp prevRow raws acc).length = acc.length + raws.length := by
  intro raws
  induction raws with
  | nil => intro acc; simp [unfilterRowGo]
  | cons raw rest ih =>
      intro acc
      rw [unfilterRowGo, ih]
      simp only [List.length_append, List.length_cons, List.length_nil]
      omega

lemma unfilterRowGo_acc (flt bpp : Nat) (prevRow : List Nat) :
    ∀ (raws acc : List Nat), ∃ t,
      unfilterRowGo flt bpp prevRow raws acc = acc ++ t := by
  intro raws
  induction raws with
  | nil => intro acc; exact ⟨[], by simp [unfilterRowGo]⟩
  | cons raw rest ih =>
      intro acc
      rw [unfilterRowGo]
      obtain ⟨t, ht⟩ := ih (acc ++ [unfilterByteVal flt raw
        (if bpp ≤ acc.length then acc.getD (acc.length - bpp) 0 else 0)
        (prevRow.getD acc.length 0)
        (if bpp ≤ acc.length then prevRow.getD (acc.length - bpp) 0 else 0)])
      exact ⟨_, by rw [ht, List.append_assoc]⟩

lemma unfilterRowGo_spec (flt bpp : Nat) (prevRow : List Nat) (hbpp : 1 ≤ bpp) :
    ∀ (raws acc : List Nat) (k : Nat), k < raws.length →
    (unfilterRowGo flt bpp prevRow raws acc).getD (acc.length + k) 0 =
      unfilterByteVal flt (raws.getD k 0)
        (if bpp ≤ acc.length + k then
          (unfilterRowGo flt bpp prevRow raws acc).getD (acc.length + k - bpp) 0
        else 0)
        (prevRow.getD (acc.length + k) 0)
        (if bpp ≤ acc.length + k then prevRow.getD (acc.length + k - bpp) 0 else 0) := by
  intro raws
  induction raws with
  | nil => intro acc k hk; simp at hk
  | cons raw rest ih =>
      intro acc k hk
      match k with
      | 0 =>
          rw [unfilterRowGo]
          obtain ⟨t, ht⟩ := unfilterRowGo_acc flt bpp prevRow rest
            (acc ++ [unfilterByteVal flt raw
              (if bpp ≤ acc.length then acc.getD (acc.length - bpp) 0 else 0)
              (prevRow.getD acc.length 0)
              (if bpp ≤ acc.length then prevRow.getD (acc.length - bpp) 0 else 0)])
          rw [ht]
          rw [List.append_assoc]
          have hget : ∀ (u : List Nat),
              (acc ++ ([unfilterByteVal flt raw
                (if bpp ≤ acc.length then acc.getD (acc.length - bpp) 0 else 0)
                (prevRow.getD acc.length 0)
                (if bpp ≤ acc.length then prevRow.getD (acc.length - bpp) 0 else 0)] ++ u)).getD
                (acc.length + 0) 0 =
              unfilterByteVal flt raw
                (if bpp ≤ acc.length then acc.getD (acc.length - bpp) 0 else 0)
                (prevRow.getD acc.length 0)
                (if bpp ≤ acc.length then prevRow.getD (acc.length - bpp) 0 else 0) := by
            intro u
            rw [Nat.add_zero, List.getD_append_right _ _ _ _ (Nat.le_refl _)]
            simp
          rw [hget]
          simp only [List.getD_cons_zero, Nat.add_zero]
          congr 1
          · by_cases hb : bpp ≤ acc.length
            · rw [if_pos hb, if_pos hb]
              rw [List.getD_append _ _ _ _ (by omega)]
            · rw [if_neg hb, if_neg hb]
      | k + 1 =>
          rw [unfilterRowGo]
          have harith : acc.length + (k + 1) =
              (acc ++ [unfilterByteVal flt raw
                (if bpp ≤ acc.length then acc.getD (acc.length - bpp) 0 else 0)
                (prevRow.getD acc.length 0)
                (if bpp ≤ acc.length then prevRow.getD (acc.length - bpp) 0 else 0)]).length
                + k := by
            simp only [List.length_append, List.length_cons, List.length_nil]
            omega
          rw [harith]
          rw [ih _ k (by simpa using Nat.lt_of_succ_lt_succ hk)]
          simp only [List.length_append, List.length_cons, List.length_nil,
            List.getD_cons_succ]

lemma unfilterRowGo_none (bpp : Nat) (prevRow : List Nat) :
    ∀ (raws acc : List Nat), unfilterRowGo 0 bpp prevRow raws acc = acc ++ raws := by
  intro raws
  induction raws with
  | nil => intro acc; simp [unfilterRowGo]
  | cons raw rest ih =>
      intro acc
      rw [unfilterRowGo]
      show unfilterRowGo 0 bpp prevRow rest (acc ++ [unfilterByteVal 0 raw _ _ _]) = _
      rw [ih]
      simp [unfilterByteVal]

lemma unfilterAllGo_length (d : List Nat) (rb pb bpp : Nat) :
    ∀ (n row : Nat) (prev : List Nat),
      (unfilterAllGo d rb pb bpp n row prev).length = n := by
  intro n
  induction n with
  | zero => intro row prev; rfl
  | succ n ih =>
      intro row prev
      rw [unfilterAllGo]
      simp [ih]

lemma unfilterAllGo_getD (d : List Nat) (rb pb bpp : Nat) :
    ∀ (n k row : Nat) (prev : List Nat), k < n →
      prev = (if row = 0 then [] else rowAt d rb pb bpp (row - 1)) →
      (unfilterAllGo d rb pb bpp n row prev).getD k [] =
        rowAt d rb pb bpp (row + k) := by
  intro n
  induction n with
  | zero => intro k row prev hk hprev; omega
  | succ n ih =>
      intro k row prev hk hprev
      rw [unfilterAllGo]
      have hrow : unfilterRowGo (d.getD (row * rb) 0) bpp prev
          ((d.drop (row * rb + 1)).take pb) [] = rowAt d rb pb bpp row := by
        rcases row with _ | r
        · simp only [if_pos rfl] at hprev
          subst hprev
          simp only [Nat.zero_mul, Nat.zero_add]
          rfl
        · simp only [Nat.succ_ne_zero, if_neg, Nat.add_sub_cancel] at hprev
          subst hprev
          rfl
      rcases k with _ | k
      · simp only [List.getD_cons_zero, hrow, Nat.add_zero]
      · simp only [List.getD_cons_succ]
        have := ih k (row + 1) (unfilterRowGo (d.getD (row * rb) 0) bpp prev
          ((d.drop (row * rb + 1)).take pb) []) (by omega)
          (by
            rw [if_neg (by omega : ¬ (row + 1 = 0)),
              (by omega : row + 1 - 1 = row)]
            exact hrow)
        rw [this]
        congr 1
        omega

lemma unfilterAll_getD (d : List Nat) (h rb pb bpp : Nat) {r : Nat} (hr : r < h) :
    (unfilterAll d h rb pb bpp).getD r [] = rowAt d rb pb bpp r := by
  have := unfilterAllGo_getD d rb pb bpp h r 0 [] hr (by simp)
  simpa using this

lemma rowAt_length (d : List Nat) (rb pb bpp r : Nat) :
    (rowAt d rb pb bpp r).length = ((d.drop (r * rb + 1)).take pb).length := by
  cases r with
  | zero =>
      rw [rowAt, unfilterRowGo_length]
      simp [Nat.zero_mul]
  | succ n =>
      rw [rowAt, unfilterRowGo_length]
      simp

lemma rowAt_length_pb {d : List Nat} {rb pb bpp r : Nat}
    (hlen : r * rb + 1 + pb ≤ d.length) :
    (rowAt d rb pb bpp r).length = pb := by
  rw [rowAt_length]
  simp only [List.length_take, List.length_drop]
  omega

lemma getD_take_lt {l : List Nat} {n i d : Nat} (h : i < n) :
    (l.take n).getD i d = l.getD i d := by
  simp [List.getD_eq_getElem?_getD, List.getElem?_take_of_lt h]

/-! ## Row assembly lemmas -/

lemma writeBlocks_append (L : Nat) :
    ∀ (bs1 bs2 : List (List Nat)) (buf : List Nat) (pos : Nat),
      writeBlocks buf pos L (bs1 ++ bs2) =
        writeBlocks (writeBlocks buf pos L bs1).1 (writeBlocks buf pos L bs1).2
          L bs2 := by
  intro bs1
  induction bs1 with
  | nil => intro bs2 buf pos; rfl
  | cons b rest ih =>
      intro bs2 buf pos
      rw [List.cons_append, writeBlocks, writeBlocks, ih]

lemma flatten_length_uniform {L : Nat} :
    ∀ (blocks : List (List Nat)), (∀ b ∈ blocks, b.length = L) →
      blocks.flatten.length = L * blocks.length := by
  intro blocks
  induction blocks with
  | nil => intro hall; simp
  | cons b rest ih =>
      intro hall
      rw [List.flatten_cons, List.length_append, List.length_cons,
        hall b (List.mem_cons_self _ _),
        ih (fun x hx => hall x (List.mem_cons_of_mem _ hx)), Nat.mul_succ]
      omega

lemma writeBlocks_eq :
    ∀ (blocks : List (List Nat)) (buf : List Nat) (pos L : Nat),
      (∀ b ∈ blocks, b.length = L) → pos + L * blocks.length ≤ buf.length →
      writeBlocks buf pos L blocks =
        (setBytes buf pos blocks.flatten, pos + L * blocks.length) := by
  intro blocks
  induction blocks with
  | nil =>
      intro buf pos L hall hle
      rw [writeBlocks]
      simp [setBytes, List.take_append_drop]
  | cons b rest ih =>
      intro buf pos L hall hle
      have hb : b.length = L := hall b (List.mem_cons_self _ _)
      have hlen1 : (setBytes buf pos b).length = buf.length :=
        length_setBytes (by rw [hb]; calc
          pos + L ≤ pos + L * (b :: rest).length := by
            simp only [List.length_cons, Nat.mul_succ]; omega
          _ ≤ buf.length := hle)
      rw [writeBlocks]
      rw [ih _ _ _ (fun x hx => hall x (List.mem_cons_of_mem _ hx))
        (by rw [hlen1]; simp only [List.length_cons, Nat.mul_succ] at hle; omega)]
      have hcomp : setBytes (setBytes buf pos b) (pos + L) rest.flatten =
          setBytes buf pos (b ++ rest.flatten) := by
        have := @setBytes_comp buf b rest.flatten pos (by omega)
        rw [hb] at this
        exact this
      rw [hcomp, List.flatten_cons]
      have : pos + L + L * rest.length = pos + L * (b :: rest).length := by
        simp only [List.length_cons, Nat.mul_succ]; omega
      rw [this]

lemma range_map_getD {α β : Type} (d : α) (f : α → β) :
    ∀ (rows : List α),
      (List.range rows.length).map (fun r => f (rows.getD r d)) = rows.map f := by
  intro rows
  induction rows with
  | nil => simp
  | cons a tl ih =>
      rw [List.length_cons, List.range_succ_eq_map, List.map_cons, List.map_map]
      rw [List.map_cons]
      congr 1

lemma newDataOf_eq {whiteRow lastRow : List Nat}
    {topRows height bottomRows rowBytes : Nat} {unfiltered : List (List Nat)}
    (hw : whiteRow.length = rowBytes)
    (hu : ∀ r ∈ unfiltered, r.length + 1 = rowBytes)
    (hl : lastRow.length + 1 = rowBytes)
    (hh : unfiltered.length = height) :
    newDataOf whiteRow topRows height unfiltered lastRow bottomRows rowBytes =
      (List.replicate topRows whiteRow ++ unfiltered.map (0 :: ·) ++
        List.replicate bottomRows (0 :: lastRow)).flatten := by
  have hB2 : (List.range height).map (fun r => 0 :: unfiltered.getD r []) =
      unfiltered.map (0 :: ·) := by
    rw [← hh]
    exact range_map_getD [] (0 :: ·) unfiltered
  have hall : ∀ b ∈ List.replicate topRows whiteRow ++ unfiltered.map (0 :: ·) ++
      List.replicate bottomRows (0 :: lastRow), b.length = rowBytes := by
    intro b hb
    simp only [List.mem_append] at hb
    rcases hb with (hb | hb) | hb
    · rw [List.eq_of_mem_replicate hb]; exact hw
    · obtain ⟨r, hr, rfl⟩ := List.mem_map.mp hb
      rw [List.length_cons]; exact hu r hr
    · rw [List.eq_of_mem_replicate hb, List.length_cons]; exact hl
  have hcount : (List.replicate topRows whiteRow ++ unfiltered.map (0 :: ·) ++
      List.replicate bottomRows (0 :: lastRow)).length =
      topRows + height + bottomRows := by
    simp [hh]
    omega
  show (writeBlocks (writeBlocks (writeBlocks
      (List.replicate ((topRows + height + bottomRows) * rowBytes) 0) 0 rowBytes
      (List.replicate topRows whiteRow)).1
      (writeBlocks (List.replicate ((topRows + height + bottomRows) * rowBytes) 0)
        0 rowBytes (List.replicate topRows whiteRow)).2 rowBytes
      ((List.range height).map (fun r => 0 :: unfiltered.getD r []))).1
    (writeBlocks (writeBlocks
      (List.replicate ((topRows + height + bottomRows) * rowBytes) 0) 0 rowBytes
      (List.replicate topRows whiteRow)).1
      (writeBlocks (List.replicate ((topRows + height + bottomRows) * rowBytes) 0)
        0 rowBytes (List.replicate topRows whiteRow)).2 rowBytes
      ((List.range height).map (fun r => 0 :: unfiltered.getD r []))).2 rowBytes
    (List.replicate bottomRows (0 :: lastRow))).1 = _
  rw [hB2]
  rw [← writeBlocks_append, ← writeBlocks_append, ← List.append_assoc]
  rw [writeBlocks_eq _ _ _ _ hall
    (by
      rw [List.length_replicate, hcount]
      rw [Nat.mul_comm]
      simp)]
  have hflat : (List.replicate topRows whiteRow ++ unfiltered.map (0 :: ·) ++
      List.replicate bottomRows (0 :: lastRow)).flatten.length =
      rowBytes * (topRows + height + bottomRows) := by
    rw [flatten_length_uniform _ hall, hcount]
  unfold setBytes
  rw [List.take_zero, Nat.zero_add, hflat]
  rw [List.drop_eq_nil_of_le (by rw [List.length_replicate, Nat.mul_comm])]
  simp

/-! ## None-encode round trip lemmas -/

lemma flatten_drop_uniform {L : Nat} :
    ∀ (blocks : List (List Nat)) (k : Nat), (∀ b ∈ blocks, b.length = L) →
      blocks.flatten.drop (k * L) = (blocks.drop k).flatten := by
  intro blocks
  induction blocks with
  | nil => intro k hall; simp
  | cons b rest ih =>
      intro k hall
      cases k with
      | zero => simp
      | succ k =>
          rw [List.flatten_cons, Nat.succ_mul]
          rw [show k * L + L = b.length + k * L from by
            rw [hall b (List.mem_cons_self _ _)]; omega]
          rw [← List.drop_drop, List.drop_left]
          rw [ih k (fun x hx => hall x (List.mem_cons_of_mem _ hx))]
          rfl

lemma unfilterAllGo_none_rows {pb bpp : Nat} {rows : List (List Nat)}
    (hall : ∀ row ∈ rows, row.length = pb) :
    ∀ (n start : Nat) (prev : List Nat), start + n = rows.length →
      unfilterAllGo ((rows.map (0 :: ·)).flatten) (pb + 1) pb bpp n start prev =
        rows.drop start := by
  intro n
  induction n with
  | zero =>
      intro start prev h
      rw [unfilterAllGo]
      rw [List.drop_eq_nil_of_le (by omega)]
  | succ n ih =>
      intro start prev h
      have hstart : start < rows.length := by omega
      have hallm : ∀ b ∈ rows.map (0 :: ·), b.length = pb + 1 := by
        intro b hb
        obtain ⟨r, hr, rfl⟩ := List.mem_map.mp hb
        simp [hall r hr]
      have hdropf : ((rows.map (0 :: ·)).flatten).drop (start * (pb + 1)) =
          ((0 :: rows[start]) :: ((rows.drop (start + 1)).map (0 :: ·))).flatten := by
        rw [flatten_drop_uniform _ start hallm]
        rw [← List.map_drop, List.drop_eq_getElem_cons hstart, List.map_cons]
      have hfshape : ((rows.map (0 :: ·)).flatten).drop (start * (pb + 1)) =
          0 :: (rows[start] ++ ((rows.drop (start + 1)).map (0 :: ·)).flatten) := by
        rw [hdropf]
        rfl
      rw [unfilterAllGo]
      have hflt : ((rows.map (0 :: ·)).flatten).getD (start * (pb + 1)) 0 = 0 := by
        have h0 := getD_drop ((rows.map (0 :: ·)).flatten) (start * (pb + 1)) 0 0
        rw [hfshape] at h0
        simpa using h0.symm
      have hraws : (((rows.map (0 :: ·)).flatten).drop (start * (pb + 1) + 1)).take pb =
          rows[start] := by
        rw [← List.drop_drop, hfshape]
        rw [List.drop_one, List.tail_cons]
        exact List.take_left' (hall _ (List.getElem_mem hstart))
      rw [hflt, hraws, unfilterRowGo_none, List.nil_append]
      rw [ih (start + 1) rows[start] (by omega)]
      rw [List.drop_eq_getElem_cons hstart]

/-! ## Chunk rebuild lemmas -/

lemma mem_rebuildChunks {newIhdr compressed : List Nat} :
    ∀ (chunks : List PngChunk) (ins : Bool) (c : PngChunk),
      c ∈ rebuildChunks newIhdr compressed chunks ins →
      c = PngChunk.mk ihdrType newIhdr ∨ c = PngChunk.mk idatType compressed ∨
        c ∈ chunks := by
  intro chunks
  induction chunks with
  | nil => intro ins c hc; rw [rebuildChunks] at hc; simp at hc
  | cons x rest ih =>
      intro ins c hc
      rw [rebuildChunks] at hc
      by_cases h1 : x.type = ihdrType
      · rw [if_pos h1] at hc
        rcases List.mem_cons.mp hc with h | h
        · exact Or.inl h
        · rcases ih ins c h with h | h | h
          · exact Or.inl h
          · exact Or.inr (Or.inl h)
          · exact Or.inr (Or.inr (List.mem_cons_of_mem _ h))
      · rw [if_neg h1] at hc
        by_cases h2 : x.type = idatType
        · rw [if_pos h2] at hc
          cases ins with
          | true =>
              rcases ih true c hc with h | h | h
              · exact Or.inl h
              · exact Or.inr (Or.inl h)
              · exact Or.inr (Or.inr (List.mem_cons_of_mem _ h))
          | false =>
              rcases List.mem_cons.mp hc with h | h
              · exact Or.inr (Or.inl h)
              · rcases ih true c h with h | h | h
                · exact Or.inl h
                · exact Or.inr (Or.inl h)
                · exact Or.inr (Or.inr (List.mem_cons_of_mem _ h))
        · rw [if_neg h2] at hc
          rcases List.mem_cons.mp hc with h | h
          · exact Or.inr (Or.inr (h ▸ List.mem_cons_self _ _))
          · rcases ih ins c h with h | h | h
            · exact Or.inl h
            · exact Or.inr (Or.inl h)
            · exact Or.inr (Or.inr (List.mem_cons_of_mem _ h))

lemma find?_ihdr_rebuildChunks {newIhdr compressed : List Nat} :
    ∀ (chunks : List PngChunk) (ins : Bool),
      (chunks.find? (fun c => c.type = ihdrType)).isSome →
      (rebuildChunks newIhdr compressed chunks ins).find?
        (fun c => c.type = ihdrType) = some (PngChunk.mk ihdrType newIhdr) := by
  intro chunks
  induction chunks with
  | nil => intro ins h; simp [List.find?] at h
  | cons x rest ih =>
      intro ins h
      rw [rebuildChunks]
      by_cases h1 : x.type = ihdrType
      · rw [if_pos h1]
        apply List.find?_cons_of_pos
        simp [ihdrType]
      · have hrest : (rest.find? (fun c => c.type = ihdrType)).isSome := by
          rw [List.find?_cons_of_neg _ (by simp [h1])] at h
          exact h
        rw [if_neg h1]
        by_cases h2 : x.type = idatType
        · rw [if_pos h2]
          cases ins with
          | true =>
              rw [if_pos rfl]
              exact ih true hrest
          | false =>
              rw [if_neg (by simp)]
              rw [List.find?_cons_of_neg _ (by simp [idatType, ihdrType])]
              exact ih true hrest
        · rw [if_neg h2]
          rw [List.find?_cons_of_neg _ (by simp [h1])]
          exact ih ins hrest

lemma rebuildChunks_inserted {newIhdr compressed : List Nat} :
    ∀ (l : List PngChunk),
      rebuildChunks newIhdr compressed l true =
        (l.filter (fun c => ¬ c.type = idatType)).map
          (fun c => if c.type = ihdrType then PngChunk.mk ihdrType newIhdr else c) := by
  intro l
  induction l with
  | nil => rfl
  | cons x rest ih =>
      rw [rebuildChunks]
      by_cases h1 : x.type = ihdrType
      · rw [if_pos h1]
        have hx : ¬ x.type = idatType := by rw [h1]; simp [ihdrType, idatType]
        rw [List.filter_cons_of_pos (by simpa using hx), List.map_cons, if_pos h1, ih]
      · rw [if_neg h1]
        by_cases h2 : x.type = idatType
        · rw [if_pos h2, if_pos rfl, List.filter_cons_of_neg (by simpa using h2), ih]
        · rw [if_neg h2, List.filter_cons_of_pos (by simpa using h2), List.map_cons,
            if_neg h1, ih]

lemma rebuildChunks_no_idat {newIhdr compressed : List Nat} :
    ∀ (pre : List PngChunk), (∀ c ∈ pre, ¬ c.type = idatType) →
    ∀ (tail : List PngChunk) (ins : Bool),
      rebuildChunks newIhdr compressed (pre ++ tail) ins =
        pre.map (fun c => if c.type = ihdrType then PngChunk.mk ihdrType newIhdr else c)
          ++ rebuildChunks newIhdr compressed tail ins := by
  intro pre
  induction pre with
  | nil => intro hp tail ins; simp
  | cons x rest ih =>
      intro hp tail ins
      have hx : ¬ x.type = idatType := hp x (List.mem_cons_self _ _)
      rw [List.cons_append, rebuildChunks]
      by_cases h1 : x.type = ihdrType
      · rw [if_pos h1, ih (fun c hc => hp c (List.mem_cons_of_mem _ hc)) tail ins,
          List.map_cons, if_pos h1, List.cons_append]
      · rw [if_neg h1, if_neg hx,
          ih (fun c hc => hp c (List.mem_cons_of_mem _ hc)) tail ins,
          List.map_cons, if_neg h1, List.cons_append]

/-! ## Patched header access lemmas -/

lemma newIhdr_take4 {data : List Nat} {t : Nat} (h : 8 ≤ data.length) :
    (setBytes data 4 (u32be t)).take 4 = data.take 4 :=
  take_setBytes (by omega) (by omega)

lemma newIhdr_drop4 {data : List Nat} {t : Nat} (h : 8 ≤ data.length) :
    (setBytes data 4 (u32be t)).drop 4 = u32be t ++ data.drop 8 := by
  have := @drop_setBytes_at data (u32be t) 4 (by omega)
  rw [length_u32be] at this
  exact this

lemma newIhdr_drop8 {data : List Nat} {t : Nat} (h : 8 ≤ data.length) :
    (setBytes data 4 (u32be t)).drop 8 = data.drop 8 := by
  have := @drop_setBytes data (u32be t) 4 (by omega)
  rw [length_u32be] at this
  exact this

lemma readU32d_take4 (l : List Nat) : readU32d (l.take 4) 0 = readU32d l 0 := by
  unfold readU32d
  rw [getD_take_lt (by omega), getD_take_lt (by omega), getD_take_lt (by omega),
    getD_take_lt (by omega)]

lemma newIhdr_width {data : List Nat} {t : Nat} (h : 8 ≤ data.length) :
    readU32d (setBytes data 4 (u32be t)) 0 = readU32d data 0 := by
  rw [← readU32d_take4, newIhdr_take4 h, readU32d_take4]

lemma newIhdr_height {data : List Nat} {t : Nat} (h : 8 ≤ data.length)
    (ht : t < 4294967296) : readU32d (setBytes data 4 (u32be t)) 4 = t := by
  rw [readU32d_drop, newIhdr_drop4 h, readU32d_u32be _ ht]

lemma length_newIhdr {data : List Nat} {t : Nat} (h : 8 ≤ data.length) :
    (setBytes data 4 (u32be t)).length = data.length := by
  apply length_setBytes
  rw [length_u32be]
  omega

/-! ## padPngCore branch lemmas -/

lemma padPngCore_none_noihdr {inflate deflate : List Nat → List Nat}
    {chunks : List PngChunk} {rw rh : Nat}
    (hfind : chunks.find? (fun c => c.type = ihdrType) = none) :
    padPngCore inflate deflate chunks rw rh = none := by
  unfold padPngCore
  rw [hfind]

lemma padPngCore_none_short {inflate deflate : List Nat → List Nat}
    {chunks : List PngChunk} {rw rh : Nat} {ihdrC : PngChunk}
    (hfind : chunks.find? (fun c => c.type = ihdrType) = some ihdrC)
    (hshort : ihdrC.data.length < 13) :
    padPngCore inflate deflate chunks rw rh = none := by
  unfold padPngCore
  rw [hfind]
  dsimp only
  rw [if_pos hshort]

lemma padPngCore_none_guard {inflate deflate : List Nat → List Nat}
    {chunks : List PngChunk} {rw rh : Nat} {ihdrC : PngChunk}
    (hfind : chunks.find? (fun c => c.type = ihdrType) = some ihdrC)
    (h13 : 13 ≤ ihdrC.data.length)
    (hguard : ihdrC.data.getD 12 0 ≠ 0 ∨ ihdrC.data.getD 9 0 = 3) :
    padPngCore inflate deflate chunks rw rh = none := by
  unfold padPngCore
  rw [hfind]
  dsimp only
  rw [if_neg (by omega), if_pos hguard]

lemma padPngCore_none_depth {inflate deflate : List Nat → List Nat}
    {chunks : List PngChunk} {rw rh : Nat} {ihdrC : PngChunk}
    (hfind : chunks.find? (fun c => c.type = ihdrType) = some ihdrC)
    (h13 : 13 ≤ ihdrC.data.length)
    (hdepth : ihdrC.data.getD 8 0 ≠ 8) :
    padPngCore inflate deflate chunks rw rh = none := by
  unfold padPngCore
  rw [hfind]
  dsimp only
  rw [if_neg (by omega)]
  by_cases hguard : ihdrC.data.getD 12 0 ≠ 0 ∨ ihdrC.data.getD 9 0 = 3
  · rw [if_pos hguard]
  · rw [if_neg hguard, if_pos hdepth]

lemma padPngCore_none_tall {inflate deflate : List Nat → List Nat}
    {chunks : List PngChunk} {rw rh : Nat} {ihdrC : PngChunk}
    (hfind : chunks.find? (fun c => c.type = ihdrType) = some ihdrC)
    (h13 : 13 ≤ ihdrC.data.length)
    (hge : targetHeightOf (readU32d ihdrC.data 0) rw rh ≤ readU32d ihdrC.data 4) :
    padPngCore inflate deflate chunks rw rh = none := by
  unfold padPngCore
  rw [hfind]
  dsimp only
  rw [if_neg (by omega)]
  by_cases hguard : ihdrC.data.getD 12 0 ≠ 0 ∨ ihdrC.data.getD 9 0 = 3
  · rw [if_pos hguard]
  · rw [if_neg hguard]
    by_cases hdepth : ihdrC.data.getD 8 0 ≠ 8
    · rw [if_pos hdepth]
    · rw [if_neg hdepth, if_pos hge]

lemma padPngCore_none_colortype {inflate deflate : List Nat → List Nat}
    {chunks : List PngChunk} {rw rh : Nat} {ihdrC : PngChunk}
    (hfind : chunks.find? (fun c => c.type = ihdrType) = some ihdrC)
    (h13 : 13 ≤ ihdrC.data.length)
    (hct : bppOf (ihdrC.data.getD 9 0) = none) :
    padPngCore inflate deflate chunks rw rh = none := by
  unfold padPngCore
  rw [hfind]
  dsimp only
  rw [if_neg (by omega)]
  by_cases hguard : ihdrC.data.getD 12 0 ≠ 0 ∨ ihdrC.data.getD 9 0 = 3
  · rw [if_pos hguard]
  · rw [if_neg hguard]
    by_cases hdepth : ihdrC.data.getD 8 0 ≠ 8
    · rw [if_pos hdepth]
    · rw [if_neg hdepth]
      by_cases hge : targetHeightOf (readU32d ihdrC.data 0) rw rh ≤
          readU32d ihdrC.data 4
      · rw [if_pos hge]
      · rw [if_neg hge, hct]

lemma padPngCore_succeeds {inflate deflate : List Nat → List Nat}
    {chunks : List PngChunk} {rw rh : Nat} {ihdrC : PngChunk} {bpp : Nat}
    (hfind : chunks.find? (fun c => c.type = ihdrType) = some ihdrC)
    (h13 : 13 ≤ ihdrC.data.length)
    (hint : ihdrC.data.getD 12 0 = 0)
    (hdepth : ihdrC.data.getD 8 0 = 8)
    (hbpp : bppOf (ihdrC.data.getD 9 0) = some bpp)
    (hlt : readU32d ihdrC.data 4 < targetHeightOf (readU32d ihdrC.data 0) rw rh) :
    ∃ newData, padPngCore inflate deflate chunks rw rh =
      some (buildPng (rebuildChunks
        (setBytes ihdrC.data 4
          (u32be (targetHeightOf (readU32d ihdrC.data 0) rw rh)))
        (deflate newData) chunks false)) := by
  unfold padPngCore
  rw [hfind]
  dsimp only
  rw [if_neg (by omega)]
  rw [if_neg (by
    rintro (hcase | hcase)
    · exact hcase hint
    · rw [hcase] at hbpp
      simp [bppOf] at hbpp)]
  rw [if_neg (by simp only [ne_eq, not_not]; exact hdepth)]
  rw [if_neg (by omega), hbpp]
  exact ⟨_, rfl⟩

/-! ## padPngE: relation to padPng and error characterization -/

lemma padPngCoreE_total (f deflate : List Nat → List Nat)
    (chunks : List PngChunk) (ratioW ratioH : Nat) :
    padPngCoreE (fun x => .ok (f x)) deflate chunks ratioW ratioH =
      .ok (padPngCore f deflate chunks ratioW ratioH) := by
  unfold padPngCoreE padPngCore
  cases hfind : chunks.find? (fun c => c.type = ihdrType) with
  | none => rfl
  | some ihdrC =>
      dsimp only
      by_cases h13 : ihdrC.data.length < 13
      · rw [if_pos h13, if_pos h13]
      · rw [if_neg h13, if_neg h13]
        by_cases hguard : ihdrC.data.getD 12 0 ≠ 0 ∨ ihdrC.data.getD 9 0 = 3
        · rw [if_pos hguard, if_pos hguard]
        · rw [if_neg hguard, if_neg hguard]
          by_cases hdepth : ihdrC.data.getD 8 0 ≠ 8
          · rw [if_pos hdepth, if_pos hdepth]
          · rw [if_neg hdepth, if_neg hdepth]
            by_cases hge : targetHeightOf (readU32d ihdrC.data 0) ratioW ratioH ≤
                readU32d ihdrC.data 4
            · rw [if_pos hge, if_pos hge]
            · rw [if_neg hge, if_neg hge]
              cases hbpp : bppOf (ihdrC.data.getD 9 0) with
              | none => rfl
              | some bpp => rfl

lemma padPngE_total (f deflate : List Nat → List Nat) (bytes : List Nat)
    (ratioW ratioH : Nat) :
    padPngE (fun x => .ok (f x)) deflate bytes ratioW ratioH =
      (padPng f deflate bytes ratioW ratioH).map id := by
  unfold padPngE padPng
  by_cases hsig : bytes.take 8 = pngSig
  · rw [if_pos hsig, if_pos hsig]
    cases hparse : parsePngChunks bytes with
    | error e => rfl
    | ok chunks =>
        dsimp only
        rw [padPngCoreE_total]
        rfl
  · rw [if_neg hsig, if_neg hsig]
    rfl

lemma padPngCoreE_error_iff (inflate : List Nat → Except Unit (List Nat))
    (deflate : List Nat → List Nat) (chunks : List PngChunk) (ratioW ratioH : Nat) :
    padPngCoreE inflate deflate chunks ratioW ratioH = .error () ↔
      ∃ ihdrC bpp, chunks.find? (fun c => c.type = ihdrType) = some ihdrC ∧
        13 ≤ ihdrC.data.length ∧ ihdrC.data.getD 12 0 = 0 ∧
        ihdrC.data.getD 8 0 = 8 ∧ bppOf (ihdrC.data.getD 9 0) = some bpp ∧
        readU32d ihdrC.data 4 <
          targetHeightOf (readU32d ihdrC.data 0) ratioW ratioH ∧
        inflate (((chunks.filter (fun c => c.type = idatType)).map
          (fun c => c.data)).flatten) = .error () := by
  unfold padPngCoreE
  cases hfind : chunks.find? (fun c => c.type = ihdrType) with
  | none =>
      constructor
      · intro h
        cases h
      · rintro ⟨ihdrC, bpp, heq, -⟩
        cases heq
  | some ihdrC0 =>
      dsimp only
      by_cases h13 : ihdrC0.data.length < 13
      · rw [if_pos h13]
        constructor
        · intro h
          cases h
        · rintro ⟨ihdrC, bpp, heq, h1, -⟩
          injection heq with heq
          subst heq
          exact absurd h13 (by omega)
      · rw [if_neg h13]
        by_cases hguard : ihdrC0.data.getD 12 0 ≠ 0 ∨ ihdrC0.data.getD 9 0 = 3
        · rw [if_pos hguard]
          constructor
          · intro h
            cases h
          · rintro ⟨ihdrC, bpp, heq, -, h2, -, h4, -⟩
            injection heq with heq
            subst heq
            rcases hguard with hcase | hcase
            · exact (hcase h2).elim
            · rw [hcase] at h4
              simp [bppOf] at h4
        · rw [if_neg hguard]
          by_cases hdepth : ihdrC0.data.getD 8 0 ≠ 8
          · rw [if_pos hdepth]
            constructor
            · intro h
              cases h
            · rintro ⟨ihdrC, bpp, heq, -, -, h3, -⟩
              injection heq with heq
              subst heq
              exact (hdepth h3).elim
          · rw [if_neg hdepth]
            by_cases hge : targetHeightOf (readU32d ihdrC0.data 0) ratioW ratioH ≤
                readU32d ihdrC0.data 4
            · rw [if_pos hge]
              constructor
              · intro h
                cases h
              · rintro ⟨ihdrC, bpp, heq, -, -, -, -, h5, -⟩
                injection heq with heq
                subst heq
                exact absurd h5 (by omega)
            · rw [if_neg hge]
              cases hbpp : bppOf (ihdrC0.data.getD 9 0) with
              | none =>
                  constructor
                  · intro h
                    cases h
                  · rintro ⟨ihdrC, bpp, heq, -, -, -, h4, -⟩
                    injection heq with heq
                    subst heq
                    rw [hbpp] at h4
                    cases h4
              | some bpp0 =>
                  cases hinf : inflate (((chunks.filter
                      (fun c => c.type = idatType)).map (fun c => c.data)).flatten) with
                  | error e =>
                      cases e
                      constructor
                      · intro _
                        push_neg at hguard
                        exact ⟨ihdrC0, bpp0, rfl, by omega, hguard.1,
                          by omega, hbpp, by omega, rfl⟩
                      · intro _
                        rfl
                  | ok decompressed =>
                      constructor
                      · intro h
                        cases h
                      · rintro ⟨ihdrC, bpp, heq, -, -, -, -, -, h6⟩
                        injection heq with heq
                        subst heq
                        cases h6

/-! ## Unfilter row shape lemmas -/

lemma rowAt_eq_go (d : List Nat) (rb pb bpp r : Nat) :
    rowAt d rb pb bpp r =
      unfilterRowGo (d.getD (r * rb) 0) bpp
        (if r = 0 then [] else rowAt d rb pb bpp (r - 1))
        ((d.drop (r * rb + 1)).take pb) [] := by
  rcases r with _ | s
  · rw [rowAt]
    simp [Nat.zero_mul]
  · rw [rowAt]
    simp

lemma unfilterAll_length (d : List Nat) (height rb pb bpp : Nat) :
    (unfilterAll d height rb pb bpp).length = height :=
  unfilterAllGo_length d rb pb bpp height 0 []

lemma unfilterAll_row_length {d : List Nat} {height width bpp : Nat}
    (hd : d.length = height * (1 + width * bpp)) :
    ∀ row ∈ unfilterAll d height (1 + width * bpp) (width * bpp) bpp,
      row.length = width * bpp := by
  intro row hrow
  obtain ⟨k, hk, hkeq⟩ := List.mem_iff_getElem.mp hrow
  have hklen : k < height := by
    rw [unfilterAll_length] at hk
    exact hk
  have hrowk : row = rowAt d (1 + width * bpp) (width * bpp) bpp k := by
    rw [← hkeq, ← List.getD_eq_getElem _ ([] : List Nat) hk,
      unfilterAll_getD d height _ _ bpp hklen]
  rw [hrowk]
  apply rowAt_length_pb
  have h1 : k * (1 + width * bpp) + (1 + width * bpp) ≤
      height * (1 + width * bpp) := by
    have h2 := Nat.mul_le_mul_right (1 + width * bpp)
      (show k + 1 ≤ height from hklen)
    calc k * (1 + width * bpp) + (1 + width * bpp)
        = (k + 1) * (1 + width * bpp) := by rw [Nat.succ_mul]
      _ ≤ height * (1 + width * bpp) := h2
  omega

lemma pixelAt_eq {d : List Nat} {height width bpp r i : Nat}
    (hbpp : 1 ≤ bpp) (hd : d.length = height * (1 + width * bpp))
    (hr : r < height) (hi : i < width * bpp) :
    pixelAt d height (1 + width * bpp) (width * bpp) bpp r i =
      unfilterByteVal (d.getD (r * (1 + width * bpp)) 0)
        (d.getD (r * (1 + width * bpp) + 1 + i) 0)
        (if bpp ≤ i then
          pixelAt d height (1 + width * bpp) (width * bpp) bpp r (i - bpp) else 0)
        (if r = 0 then 0
          else pixelAt d height (1 + width * bpp) (width * bpp) bpp (r - 1) i)
        (if r = 0 ∨ i < bpp then 0
          else pixelAt d height (1 + width * bpp) (width * bpp) bpp (r - 1) (i - bpp)) := by
  have hraws_len : ((d.drop (r * (1 + width * bpp) + 1)).take (width * bpp)).length =
      width * bpp := by
    simp only [List.length_take, List.length_drop]
    have h1 : r * (1 + width * bpp) + (1 + width * bpp) ≤
        height * (1 + width * bpp) := by
      calc r * (1 + width * bpp) + (1 + width * bpp)
          = (r + 1) * (1 + width * bpp) := by rw [Nat.succ_mul]
        _ ≤ height * (1 + width * bpp) :=
            Nat.mul_le_mul_right _ (show r + 1 ≤ height from hr)
    omega
  have hprev_len : r ≠ 0 →
      (rowAt d (1 + width * bpp) (width * bpp) bpp (r - 1)).length = width * bpp := by
    intro hr0
    apply rowAt_length_pb
    have h1 : (r - 1) * (1 + width * bpp) + (1 + width * bpp) ≤
        height * (1 + width * bpp) := by
      calc (r - 1) * (1 + width * bpp) + (1 + width * bpp)
          = (r - 1 + 1) * (1 + width * bpp) := by rw [Nat.succ_mul]
        _ ≤ height * (1 + width * bpp) :=
            Nat.mul_le_mul_right _ (by omega)
    omega
  have hprev_getD : ∀ j,
      ((if r = 0 then [] else rowAt d (1 + width * bpp) (width * bpp) bpp (r - 1)) :
        List Nat).getD j 0 =
      if r = 0 then 0
        else ((unfilterAll d height (1 + width * bpp) (width * bpp) bpp).getD
          (r - 1) []).getD j 0 := by
    intro j
    rcases Nat.eq_zero_or_pos r with hr0 | hr0
    · rw [if_pos hr0, if_pos hr0]
      rfl
    · rw [if_neg (by omega), if_neg (by omega)]
      rw [unfilterAll_getD d height _ _ bpp (by omega : r - 1 < height)]
  have hspec := unfilterRowGo_spec (d.getD (r * (1 + width * bpp)) 0) bpp
    (if r = 0 then [] else rowAt d (1 + width * bpp) (width * bpp) bpp (r - 1))
    hbpp ((d.drop (r * (1 + width * bpp) + 1)).take (width * bpp)) [] i
    (by rw [hraws_len]; exact hi)
  simp only [List.length_nil, Nat.zero_add] at hspec
  have hraws_getD :
      ((d.drop (r * (1 + width * bpp) + 1)).take (width * bpp)).getD i 0 =
      d.getD (r * (1 + width * bpp) + 1 + i) 0 := by
    rw [getD_take_lt hi, getD_drop]
  unfold pixelAt
  rw [unfilterAll_getD d height _ _ bpp hr, rowAt_eq_go]
  rw [hspec, hraws_getD]
  congr 1
  · rw [hprev_getD i]
  · by_cases hb : bpp ≤ i
    · rw [if_pos hb, hprev_getD (i - bpp)]
      by_cases hr0 : r = 0
      · rw [if_pos hr0, if_pos (Or.inl hr0)]
      · rw [if_neg hr0, if_neg (by push_neg; exact ⟨hr0, by omega⟩)]
    · rw [if_neg hb, if_pos (Or.inr (by omega))]

/-! ## Parse of a built stream -/

lemma parse_buildPng {chunks : List PngChunk}
    (h : ∀ c ∈ chunks, c.type.length = 4 ∧ (∀ b ∈ c.type, b < 256) ∧
      c.data.length < 4294967296) :
    parsePngChunks (buildPng chunks) = .ok chunks := by
  rw [buildPng_eq]
  show parseChunksFrom (pngSig ++ encodedAll chunks) (pngSig.length) = .ok chunks
  exact parse_encodedAll chunks pngSig (fun c hc =>
    ⟨typeBytes4_eq_self (h c hc).1 (h c hc).2.1, (h c hc).2.2⟩)

/-! ## Claim theorems -/

/-- Claim C8: encoding a chunk sequence produces, per chunk in input order, a
4-byte big-endian payload length, the 4-byte type tag, the payload, and a
4-byte big-endian CRC-32 over the type tag followed by the payload, all after
the 8-byte signature; and the crc32 function implements the standard
reflected-0xEDB88320 checksum (witnessed by the well-known IEND value). -/
theorem c8_encode_layout (chunks : List PngChunk)
    (h : ∀ c ∈ chunks, c.type.length = 4 ∧ ∀ b ∈ c.type, b < 256) :
    buildPng chunks = pngSig ++
      (chunks.map (fun c => u32be c.data.length ++ c.type ++ c.data ++
        u32be (crc32 (c.type ++ c.data)))).flatten ∧
    crc32 [73, 69, 78, 68] = 0xae426082 := by
  constructor
  · have hmap : chunks.map encodeChunk =
        chunks.map (fun c => u32be c.data.length ++ c.type ++ c.data ++
          u32be (crc32 (c.type ++ c.data))) := by
      apply List.map_congr_left
      intro c hc
      unfold encodeChunk
      rw [typeBytes4_eq_self (h c hc).1 (h c hc).2]
    rw [buildPng_eq]
    unfold encodedAll
    rw [hmap]
  · decide

/-- Witness for C8 at a concrete one-chunk sequence. -/
theorem c8_encode_layout_witness :
    buildPng [PngChunk.mk ihdrType [1, 2]] = pngSig ++
      ([PngChunk.mk ihdrType [1, 2]].map
        (fun c => u32be c.data.length ++ c.type ++ c.data ++
          u32be (crc32 (c.type ++ c.data)))).flatten ∧
    crc32 [73, 69, 78, 68] = 0xae426082 :=
  c8_encode_layout [PngChunk.mk ihdrType [1, 2]] (by decide)

/-- Claim C10: decoding the bytes produced by encoding a chunk sequence whose
type tags are exactly four single-byte characters and whose payloads are
shorter than 2^32 yields the same sequence: same type tags, same payload
bytes, same order. -/
theorem c10_codec_roundtrip (chunks : List PngChunk)
    (h : ∀ c ∈ chunks, c.type.length = 4 ∧ (∀ b ∈ c.type, b < 256) ∧
      c.data.length < 4294967296) :
    parsePngChunks (buildPng chunks) = .ok chunks :=
  parse_buildPng h

/-- Witness for C10 at a concrete two-chunk sequence. -/
theorem c10_codec_roundtrip_witness :
    parsePngChunks (buildPng [PngChunk.mk ihdrType [5], PngChunk.mk idatType []]) =
      .ok [PngChunk.mk ihdrType [5], PngChunk.mk idatType []] :=
  c10_codec_roundtrip [PngChunk.mk ihdrType [5], PngChunk.mk idatType []] (by decide)

/-- Claim C4: when height is below the target height, the padding plan has
rowsToAdd = targetHeight - height, topRows = ceil(rowsToAdd / 2) (the natural
ceiling (rowsToAdd + 1) / 2), bottomRows = rowsToAdd - topRows, hence
topRows + bottomRows = targetHeight - height and bottomRows ≤ topRows. -/
theorem c4_padding_plan (width height ratioW ratioH : Nat) (hrw : 0 < ratioW)
    (hlt : height < targetHeightOf width ratioW ratioH) :
    topRowsOf (targetHeightOf width ratioW ratioH - height) =
      (targetHeightOf width ratioW ratioH - height + 1) / 2 ∧
    bottomRowsOf (targetHeightOf width ratioW ratioH - height) =
      targetHeightOf width ratioW ratioH - height -
        topRowsOf (targetHeightOf width ratioW ratioH - height) ∧
    topRowsOf (targetHeightOf width ratioW ratioH - height) +
      bottomRowsOf (targetHeightOf width ratioW ratioH - height) =
      targetHeightOf width ratioW ratioH - height ∧
    bottomRowsOf (targetHeightOf width ratioW ratioH - height) ≤
      topRowsOf (targetHeightOf width ratioW ratioH - height) := by
  unfold topRowsOf bottomRowsOf
  refine ⟨rfl, rfl, ?_, ?_⟩
  · unfold topRowsOf
    omega
  · unfold topRowsOf
    omega

/-- Witness for C4 at the 100x50, ratio 3:2 scenario. -/
theorem c4_padding_plan_witness :
    topRowsOf (targetHeightOf 100 3 2 - 50) =
      (targetHeightOf 100 3 2 - 50 + 1) / 2 ∧
    bottomRowsOf (targetHeightOf 100 3 2 - 50) =
      targetHeightOf 100 3 2 - 50 - topRowsOf (targetHeightOf 100 3 2 - 50) ∧
    topRowsOf (targetHeightOf 100 3 2 - 50) +
      bottomRowsOf (targetHeightOf 100 3 2 - 50) = targetHeightOf 100 3 2 - 50 ∧
    bottomRowsOf (targetHeightOf 100 3 2 - 50) ≤
      topRowsOf (targetHeightOf 100 3 2 - 50) :=
  c4_padding_plan 100 50 3 2 (by decide) (by decide)

/-- Claim C2: for every row r and byte column i of the scanline buffer, with
a the already-unfiltered byte at (r, i - bpp) or 0 when i < bpp, b the
unfiltered byte at (r - 1, i) or 0 when r = 0, and c the unfiltered byte at
(r - 1, i - bpp) or 0 when r = 0 or i < bpp, the unfilter step reconstructs
the byte as: tag 0 (None) raw, 1 (Sub) raw + a, 2 (Up) raw + b, 3 (Average)
raw + floor((a + b) / 2), 4 (Paeth) raw + paeth a b c, all additions wrapping
modulo 256, and any other tag leaves the raw byte unchanged. -/
theorem c2_unfilter_step (d : List Nat) (height width bpp r i : Nat)
    (hbpp : 1 ≤ bpp) (hd : d.length = height * (1 + width * bpp))
    (hr : r < height) (hi : i < width * bpp) :
    (d.getD (r * (1 + width * bpp)) 0 = 0 →
      pixelAt d height (1 + width * bpp) (width * bpp) bpp r i =
        d.getD (r * (1 + width * bpp) + 1 + i) 0) ∧
    (d.getD (r * (1 + width * bpp)) 0 = 1 →
      pixelAt d height (1 + width * bpp) (width * bpp) bpp r i =
        (d.getD (r * (1 + width * bpp) + 1 + i) 0 +
          (if i < bpp then 0
            else pixelAt d height (1 + width * bpp) (width * bpp) bpp r (i - bpp)))
          % 256) ∧
    (d.getD (r * (1 + width * bpp)) 0 = 2 →
      pixelAt d height (1 + width * bpp) (width * bpp) bpp r i =
        (d.getD (r * (1 + width * bpp) + 1 + i) 0 +
          (if r = 0 then 0
            else pixelAt d height (1 + width * bpp) (width * bpp) bpp (r - 1) i))
          % 256) ∧
    (d.getD (r * (1 + width * bpp)) 0 = 3 →
      pixelAt d height (1 + width * bpp) (width * bpp) bpp r i =
        (d.getD (r * (1 + width * bpp) + 1 + i) 0 +
          ((if i < bpp then 0
            else pixelAt d height (1 + width * bpp) (width * bpp) bpp r (i - bpp)) +
           (if r = 0 then 0
            else pixelAt d height (1 + width * bpp) (width * bpp) bpp (r - 1) i)) / 2)
          % 256) ∧
    (d.getD (r * (1 + width * bpp)) 0 = 4 →
      pixelAt d height (1 + width * bpp) (width * bpp) bpp r i =
        (d.getD (r * (1 + width * bpp) + 1 + i) 0 +
          paeth
            (if i < bpp then 0
              else pixelAt d height (1 + width * bpp) (width * bpp) bpp r (i - bpp))
            (if r = 0 then 0
              else pixelAt d height (1 + width * bpp) (width * bpp) bpp (r - 1) i)
            (if r = 0 ∨ i < bpp then 0
              else pixelAt d height (1 + width * bpp) (width * bpp) bpp (r - 1)
                (i - bpp)))
          % 256) ∧
    (4 < d.getD (r * (1 + width * bpp)) 0 →
      pixelAt d height (1 + width * bpp) (width * bpp) bpp r i =
        d.getD (r * (1 + width * bpp) + 1 + i) 0) := by
  have hmaster := pixelAt_eq hbpp hd hr hi
  have hswap : ∀ x : Nat,
      (if bpp ≤ i then x else 0) = (if i < bpp then 0 else x) := by
    intro x
    by_cases hb : bpp ≤ i
    · rw [if_pos hb, if_neg (by omega)]
    · rw [if_neg hb, if_pos (by omega)]
  rw [hswap] at hmaster
  refine ⟨?_, ?_, ?_, ?_, ?_, ?_⟩ <;> intro hflt
  · rw [hmaster, hflt]
    rfl
  · rw [hmaster, hflt]
    rfl
  · rw [hmaster, hflt]
    rfl
  · rw [hmaster, hflt]
    rfl
  · rw [hmaster, hflt]
    rfl
  · rw [hmaster]
    obtain ⟨m, hm⟩ : ∃ m, d.getD (r * (1 + width * bpp)) 0 = m + 5 :=
      ⟨d.getD (r * (1 + width * bpp)) 0 - 5, by omega⟩
    rw [hm]
    rfl

/-- Witness for C2: the Sub-filter equation at row 1, column 0 of a concrete
2-row, 1-pixel-wide grayscale buffer. -/
theorem c2_unfilter_step_witness :
    ([2, 9, 1, 7] : List Nat).getD (1 * (1 + 1 * 1)) 0 = 1 ∧
    pixelAt [2, 9, 1, 7] 2 (1 + 1 * 1) (1 * 1) 1 1 0 =
      (([2, 9, 1, 7] : List Nat).getD (1 * (1 + 1 * 1) + 1 + 0) 0 +
        (if 0 < 1 then 0
          else pixelAt [2, 9, 1, 7] 2 (1 + 1 * 1) (1 * 1) 1 1 (0 - 1))) % 256 := by
  constructor
  · decide
  · exact (c2_unfilter_step [2, 9, 1, 7] 2 1 1 1 0 (by decide) (by decide)
      (by decide) (by decide)).2.1 (by decide)

/-- Claim C9: unfiltering a valid scanline buffer, re-serializing every row
behind a None filter tag with the exact unfiltered bytes, and unfiltering
again reproduces the unfiltered pixel rows exactly. -/
theorem c9_none_roundtrip (d : List Nat) (height width bpp : Nat)
    (hd : d.length = height * (1 + width * bpp)) :
    unfilterAll
      (((unfilterAll d height (1 + width * bpp) (width * bpp) bpp).map
        (0 :: ·)).flatten)
      height (1 + width * bpp) (width * bpp) bpp =
      unfilterAll d height (1 + width * bpp) (width * bpp) bpp := by
  have hall : ∀ row ∈ unfilterAll d height (1 + width * bpp) (width * bpp) bpp,
      row.length = width * bpp := unfilterAll_row_length hd
  have hlen : (unfilterAll d height (1 + width * bpp) (width * bpp) bpp).length =
      height := unfilterAll_length d height _ _ bpp
  have h0 := @unfilterAllGo_none_rows (width * bpp) bpp
    (unfilterAll d height (1 + width * bpp) (width * bpp) bpp) hall height 0 []
    (by omega)
  rw [List.drop_zero] at h0
  show unfilterAllGo
      (((unfilterAll d height (1 + width * bpp) (width * bpp) bpp).map
        (0 :: ·)).flatten) (1 + width * bpp) (width * bpp) bpp height 0 [] = _
  rw [show width * bpp + 1 = 1 + width * bpp from by omega] at h0
  exact h0

/-- Witness for C9 at a concrete 2-row Sub/Up-filtered buffer. -/
theorem c9_none_roundtrip_witness :
    unfilterAll
      (((unfilterAll [1, 10, 2, 5] 2 (1 + 1 * 1) (1 * 1) 1).map (0 :: ·)).flatten)
      2 (1 + 1 * 1) (1 * 1) 1 =
      unfilterAll [1, 10, 2, 5] 2 (1 + 1 * 1) (1 * 1) 1 :=
  c9_none_roundtrip [1, 10, 2, 5] 2 1 1 (by decide)

/-- Claim C3: whenever padding is applied, the assembled scanline buffer is
exactly topRows copies of the white row (a None filter byte followed by
width x bpp bytes all equal to 0xFF, alpha included), then the original
unfiltered rows each behind a None filter byte, then bottomRows copies of the
unfiltered last real image row behind a None filter byte, in that order. -/
theorem c3_row_synthesis (d : List Nat) (height width bpp topRows bottomRows : Nat)
    (hd : d.length = height * (1 + width * bpp)) (hh : 0 < height) :
    newDataOf (0 :: List.replicate (width * bpp) 255) topRows height
      (unfilterAll d height (1 + width * bpp) (width * bpp) bpp)
      ((unfilterAll d height (1 + width * bpp) (width * bpp) bpp).getD
        (height - 1) [])
      bottomRows (1 + width * bpp) =
    (List.replicate topRows (0 :: List.replicate (width * bpp) 255) ++
      (unfilterAll d height (1 + width * bpp) (width * bpp) bpp).map (0 :: ·) ++
      List.replicate bottomRows
        (0 :: (unfilterAll d height (1 + width * bpp) (width * bpp) bpp).getD
          (height - 1) [])).flatten := by
  have hall : ∀ row ∈ unfilterAll d height (1 + width * bpp) (width * bpp) bpp,
      row.length = width * bpp := unfilterAll_row_length hd
  have hlen : (unfilterAll d height (1 + width * bpp) (width * bpp) bpp).length =
      height := unfilterAll_length d height _ _ bpp
  apply newDataOf_eq
  · simp only [List.length_cons, List.length_replicate]
    omega
  · intro r hrow
    rw [hall r hrow]
    omega
  · have hml : (unfilterAll d height (1 + width * bpp) (width * bpp) bpp).getD
        (height - 1) [] ∈ unfilterAll d height (1 + width * bpp) (width * bpp) bpp := by
      rw [List.getD_eq_getElem _ _ (by omega)]
      exact List.getElem_mem _
    rw [hall _ hml]
    omega
  · exact hlen

/-- Witness for C3 at a concrete one-row image with one top and one bottom
padding row. -/
theorem c3_row_synthesis_witness :
    newDataOf (0 :: List.replicate (1 * 1) 255) 1 1
      (unfilterAll [0, 7] 1 (1 + 1 * 1) (1 * 1) 1)
      ((unfilterAll [0, 7] 1 (1 + 1 * 1) (1 * 1) 1).getD (1 - 1) []) 1 (1 + 1 * 1) =
    (List.replicate 1 (0 :: List.replicate (1 * 1) 255) ++
      (unfilterAll [0, 7] 1 (1 + 1 * 1) (1 * 1) 1).map (0 :: ·) ++
      List.replicate 1
        (0 :: (unfilterAll [0, 7] 1 (1 + 1 * 1) (1 * 1) 1).getD (1 - 1) [])).flatten :=
  c3_row_synthesis [0, 7] 1 1 1 1 1 (by decide) (by decide)

/-- Claim C7: whenever padding is applied, the rebuilt chunk sequence equals
the original with the header chunk replaced by a clone whose 4-byte height
field (bytes 4..8) is overwritten to the target height and all other header
bytes unchanged, the first image-data chunk replaced by a single chunk
holding the recompressed buffer, later image-data chunks dropped, and every
other chunk unchanged in its original relative order. -/
theorem c7_rebuild_chunks (pre post : List PngChunk) (fi : PngChunk)
    (compressed ihdrData : List Nat) (t : Nat)
    (hpre : ∀ c ∈ pre, ¬ c.type = idatType) (hfi : fi.type = idatType)
    (hlen : 13 ≤ ihdrData.length) :
    rebuildChunks (setBytes ihdrData 4 (u32be t)) compressed
        (pre ++ fi :: post) false =
      pre.map (fun c => if c.type = ihdrType then
        PngChunk.mk ihdrType (setBytes ihdrData 4 (u32be t)) else c) ++
      PngChunk.mk idatType compressed ::
        (post.filter (fun c => ¬ c.type = idatType)).map
          (fun c => if c.type = ihdrType then
            PngChunk.mk ihdrType (setBytes ihdrData 4 (u32be t)) else c) ∧
    (setBytes ihdrData 4 (u32be t)).take 4 = ihdrData.take 4 ∧
    ((setBytes ihdrData 4 (u32be t)).drop 4).take 4 = u32be t ∧
    (setBytes ihdrData 4 (u32be t)).drop 8 = ihdrData.drop 8 ∧
    (setBytes ihdrData 4 (u32be t)).length = ihdrData.length := by
  refine ⟨?_, newIhdr_take4 (by omega), ?_, newIhdr_drop8 (by omega),
    length_newIhdr (by omega)⟩
  · rw [rebuildChunks_no_idat pre hpre (fi :: post) false]
    congr 1
    rw [rebuildChunks]
    have hfi2 : ¬ fi.type = ihdrType := by
      rw [hfi]
      decide
    rw [if_neg hfi2, if_pos hfi, if_neg (by simp)]
    rw [rebuildChunks_inserted post]
  · rw [newIhdr_drop4 (by omega)]
    exact List.take_left' (length_u32be t)

/-- Witness for C7 at a concrete chunk stream with an ancillary chunk and two
image-data chunks. -/
theorem c7_rebuild_chunks_witness :
    rebuildChunks
        (setBytes [0, 0, 0, 9, 0, 0, 0, 4, 8, 2, 0, 0, 0] 4 (u32be 6)) [9]
        ([PngChunk.mk ihdrType [0, 0, 0, 9, 0, 0, 0, 4, 8, 2, 0, 0, 0],
          PngChunk.mk [1, 2, 3, 4] [5]] ++
          PngChunk.mk idatType [6] ::
            [PngChunk.mk idatType [7], PngChunk.mk [73, 69, 78, 68] []]) false =
      [PngChunk.mk ihdrType [0, 0, 0, 9, 0, 0, 0, 4, 8, 2, 0, 0, 0],
        PngChunk.mk [1, 2, 3, 4] [5]].map
        (fun c => if c.type = ihdrType then
          PngChunk.mk ihdrType
            (setBytes [0, 0, 0, 9, 0, 0, 0, 4, 8, 2, 0, 0, 0] 4 (u32be 6))
          else c) ++
      PngChunk.mk idatType [9] ::
        ([PngChunk.mk idatType [7], PngChunk.mk [73, 69, 78, 68] []].filter
          (fun c => ¬ c.type = idatType)).map
          (fun c => if c.type = ihdrType then
            PngChunk.mk ihdrType
              (setBytes [0, 0, 0, 9, 0, 0, 0, 4, 8, 2, 0, 0, 0] 4 (u32be 6))
            else c) ∧
    (setBytes [0, 0, 0, 9, 0, 0, 0, 4, 8, 2, 0, 0, 0] 4 (u32be 6)).take 4 =
      ([0, 0, 0, 9, 0, 0, 0, 4, 8, 2, 0, 0, 0] : List Nat).take 4 ∧
    ((setBytes [0, 0, 0, 9, 0, 0, 0, 4, 8, 2, 0, 0, 0] 4 (u32be 6)).drop 4).take 4 =
      u32be 6 ∧
    (setBytes [0, 0, 0, 9, 0, 0, 0, 4, 8, 2, 0, 0, 0] 4 (u32be 6)).drop 8 =
      ([0, 0, 0, 9, 0, 0, 0, 4, 8, 2, 0, 0, 0] : List Nat).drop 8 ∧
    (setBytes [0, 0, 0, 9, 0, 0, 0, 4, 8, 2, 0, 0, 0] 4 (u32be 6)).length =
      ([0, 0, 0, 9, 0, 0, 0, 4, 8, 2, 0, 0, 0] : List Nat).length :=
  c7_rebuild_chunks
    [PngChunk.mk ihdrType [0, 0, 0, 9, 0, 0, 0, 4, 8, 2, 0, 0, 0],
      PngChunk.mk [1, 2, 3, 4] [5]]
    [PngChunk.mk idatType [7], PngChunk.mk [73, 69, 78, 68] []]
    (PngChunk.mk idatType [6]) [9] [0, 0, 0, 9, 0, 0, 0, 4, 8, 2, 0, 0, 0] 6
    (by decide) (by decide) (by decide)

/-- Claim C5: pad answers NotApplicable (ok none, not output bytes and not a
thrown error) when the first 8 bytes differ from the PNG signature; and, for
inputs whose chunk stream parses, when the header chunk is missing, or
shorter than 13 bytes, or declares a nonzero interlace flag, or the
indexed-color model (type 3), or any color type outside grayscale, RGB,
grayscale+alpha, RGBA, or a bit depth other than 8. -/
theorem c5_not_applicable (inflate deflate : List Nat → List Nat)
    (bytes : List Nat) (ratioW ratioH : Nat) :
    (¬ bytes.take 8 = pngSig →
      padPng inflate deflate bytes ratioW ratioH = .ok none) ∧
    (∀ chunks, parsePngChunks bytes = .ok chunks →
      chunks.find? (fun c => c.type = ihdrType) = none →
      padPng inflate deflate bytes ratioW ratioH = .ok none) ∧
    (∀ chunks ihdrC, parsePngChunks bytes = .ok chunks →
      chunks.find? (fun c => c.type = ihdrType) = some ihdrC →
      ihdrC.data.length < 13 →
      padPng inflate deflate bytes ratioW ratioH = .ok none) ∧
    (∀ chunks ihdrC, parsePngChunks bytes = .ok chunks →
      chunks.find? (fun c => c.type = ihdrType) = some ihdrC →
      13 ≤ ihdrC.data.length → ihdrC.data.getD 12 0 ≠ 0 →
      padPng inflate deflate bytes ratioW ratioH = .ok none) ∧
    (∀ chunks ihdrC, parsePngChunks bytes = .ok chunks →
      chunks.find? (fun c => c.type = ihdrType) = some ihdrC →
      13 ≤ ihdrC.data.length → ihdrC.data.getD 9 0 = 3 →
      padPng inflate deflate bytes ratioW ratioH = .ok none) ∧
    (∀ chunks ihdrC, parsePngChunks bytes = .ok chunks →
      chunks.find? (fun c => c.type = ihdrType) = some ihdrC →
      13 ≤ ihdrC.data.length →
      ¬ (ihdrC.data.getD 9 0 = 0 ∨ ihdrC.data.getD 9 0 = 2 ∨
        ihdrC.data.getD 9 0 = 4 ∨ ihdrC.data.getD 9 0 = 6) →
      padPng inflate deflate bytes ratioW ratioH = .ok none) ∧
    (∀ chunks ihdrC, parsePngChunks bytes = .ok chunks →
      chunks.find? (fun c => c.type = ihdrType) = some ihdrC →
      13 ≤ ihdrC.data.length → ihdrC.data.getD 8 0 ≠ 8 →
      padPng inflate deflate bytes ratioW ratioH = .ok none) := by
  have hcore : ∀ chunks, parsePngChunks bytes = .ok chunks →
      padPngCore inflate deflate chunks ratioW ratioH = none →
      padPng inflate deflate bytes ratioW ratioH = .ok none := by
    intro chunks hparse hnone
    unfold padPng
    by_cases hsig : bytes.take 8 = pngSig
    · rw [if_pos hsig, hparse]
      dsimp only
      rw [hnone]
    · rw [if_neg hsig]
  refine ⟨?_, ?_, ?_, ?_, ?_, ?_, ?_⟩
  · intro hsig
    unfold padPng
    rw [if_neg hsig]
  · intro chunks hparse hfind
    exact hcore chunks hparse (padPngCore_none_noihdr hfind)
  · intro chunks ihdrC hparse hfind hshort
    exact hcore chunks hparse (padPngCore_none_short hfind hshort)
  · intro chunks ihdrC hparse hfind h13 hint
    exact hcore chunks hparse (padPngCore_none_guard hfind h13 (Or.inl hint))
  · intro chunks ihdrC hparse hfind h13 hct
    exact hcore chunks hparse (padPngCore_none_guard hfind h13 (Or.inr hct))
  · intro chunks ihdrC hparse hfind h13 hct
    apply hcore chunks hparse
    apply padPngCore_none_colortype hfind h13
    rcases hct9 : ihdrC.data.getD 9 0 with _ | _ | _ | _ | _ | _ | _ | m
    · exact absurd (Or.inl hct9) hct
    · rfl
    · exact absurd (Or.inr (Or.inl hct9)) hct
    · rfl
    · exact absurd (Or.inr (Or.inr (Or.inl hct9))) hct
    · rfl
    · exact absurd (Or.inr (Or.inr (Or.inr hct9))) hct
    · rfl
  · intro chunks ihdrC hparse hfind h13 hdepth
    exact hcore chunks hparse (padPngCore_none_depth hfind h13 hdepth)

/-- Witness for C5: a buffer that fails the signature check is answered with
ok none. -/
theorem c5_not_applicable_witness :
    padPng (fun x => x) (fun x => x) [1, 2, 3] 3 2 = .ok none :=
  (c5_not_applicable (fun x => x) (fun x => x) [1, 2, 3] 3 2).1 (by decide)

/-- Claim C6 counterexample: a valid signature followed by a single stray
byte leaves 1 byte at the first chunk boundary; the 32-bit length read
raises a RangeError, so pad propagates an exception instead of returning the
NotApplicable result. -/
theorem c6_counterexample :
    padPng (fun x => x) (fun x => x) (pngSig ++ [0]) 3 2 = .error () := by
  unfold padPng
  rw [if_pos (by decide)]
  have hparse : parsePngChunks (pngSig ++ [0]) = .error () := by
    unfold parsePngChunks
    rw [parseChunksFrom, dif_pos (by decide),
      show readU32 (pngSig ++ [0]) 8 = none from by decide]
  rw [hparse]

/-- Claim C6 amended: the engine validates the signature before any chunk
access and the header length before header reads, and a bad signature yields
the NotApplicable result without any failure; but not every malformed input
maps to NotApplicable: the engine propagates an uncaught exception exactly
when the signature is valid and either the chunk-stream parse raises (a
chunk boundary leaving fewer than four bytes before the end of the buffer,
as in the counterexample) or the stream passes every format guard and
decompression of the concatenated image data raises on a malformed deflate
stream; in both cases the surrounding caller catches the exception and
serves the original. -/
theorem c6_no_crash_amended (inflate : List Nat → Except Unit (List Nat))
    (deflate : List Nat → List Nat) (bytes : List Nat) (ratioW ratioH : Nat) :
    (¬ bytes.take 8 = pngSig →
      padPngE inflate deflate bytes ratioW ratioH = .ok none) ∧
    (padPngE inflate deflate bytes ratioW ratioH = .error () ↔
      bytes.take 8 = pngSig ∧
        (parsePngChunks bytes = .error () ∨
          ∃ chunks ihdrC bpp, parsePngChunks bytes = .ok chunks ∧
            chunks.find? (fun c => c.type = ihdrType) = some ihdrC ∧
            13 ≤ ihdrC.data.length ∧ ihdrC.data.getD 12 0 = 0 ∧
            ihdrC.data.getD 8 0 = 8 ∧ bppOf (ihdrC.data.getD 9 0) = some bpp ∧
            readU32d ihdrC.data 4 <
              targetHeightOf (readU32d ihdrC.data 0) ratioW ratioH ∧
            inflate (((chunks.filter (fun c => c.type = idatType)).map
              (fun c => c.data)).flatten) = .error ())) := by
  constructor
  · intro hsig
    unfold padPngE
    rw [if_neg hsig]
  · unfold padPngE
    by_cases hsig : bytes.take 8 = pngSig
    · rw [if_pos hsig]
      cases hparse : parsePngChunks bytes with
      | error e =>
          cases e
          constructor
          · intro _
            exact ⟨hsig, Or.inl rfl⟩
          · intro _
            rfl
      | ok chunks =>
          dsimp only
          rw [padPngCoreE_error_iff]
          constructor
          · rintro ⟨ihdrC, bpp, hf, h1, h2, h3, h4, h5, h6⟩
            exact ⟨hsig, Or.inr ⟨chunks, ihdrC, bpp, rfl, hf, h1, h2, h3, h4, h5, h6⟩⟩
          · rintro ⟨-, hcase | ⟨chunks2, ihdrC, bpp, heq, hf, h1, h2, h3, h4, h5, h6⟩⟩
            · cases hcase
            · injection heq with heq
              subst heq
              exact ⟨ihdrC, bpp, hf, h1, h2, h3, h4, h5, h6⟩
    · rw [if_neg hsig]
      constructor
      · intro h
        cases h
      · rintro ⟨hs, -⟩
        exact (hsig hs).elim

/-- Witness for the amended C6: a buffer failing the signature check is
answered with ok none by the failure-aware engine. -/
theorem c6_no_crash_amended_witness :
    padPngE (fun x => .ok x) (fun x => x) [1, 2, 3] 3 2 = .ok none :=
  (c6_no_crash_amended (fun x => .ok x) (fun x => x) [1, 2, 3] 3 2).1 (by decide)

/-- Claim C1: for a well-formed non-interlaced 8-bit non-indexed PNG whose
height is below the target, pad succeeds and the output declares width
unchanged and height exactly ceil(width x rh / rw); when the height already
meets the target, pad answers NotApplicable; and the 100x50 RGB at 3:2
scenario gives target 67, rowsToAdd 17, topRows 9, bottomRows 8. -/
theorem c1_pad_header :
    (∀ (inflate deflate : List Nat → List Nat) (pngBytes : List Nat)
        (ratioW ratioH : Nat) (chunks : List PngChunk) (ihdrC : PngChunk),
      pngBytes.take 8 = pngSig →
      parsePngChunks pngBytes = .ok chunks →
      chunks.find? (fun c => c.type = ihdrType) = some ihdrC →
      13 ≤ ihdrC.data.length →
      ihdrC.data.getD 12 0 = 0 →
      ihdrC.data.getD 8 0 = 8 →
      (ihdrC.data.getD 9 0 = 0 ∨ ihdrC.data.getD 9 0 = 2 ∨
        ihdrC.data.getD 9 0 = 4 ∨ ihdrC.data.getD 9 0 = 6) →
      readU32d ihdrC.data 4 < targetHeightOf (readU32d ihdrC.data 0) ratioW ratioH →
      targetHeightOf (readU32d ihdrC.data 0) ratioW ratioH < 4294967296 →
      (∀ c ∈ chunks, c.type.length = 4 ∧ (∀ b ∈ c.type, b < 256) ∧
        c.data.length < 4294967296) →
      (∀ data, (deflate data).length < 4294967296) →
      ∃ out, padPng inflate deflate pngBytes ratioW ratioH = .ok (some out) ∧
        declaredDims out = some (readU32d ihdrC.data 0,
          targetHeightOf (readU32d ihdrC.data 0) ratioW ratioH)) ∧
    (∀ (inflate deflate : List Nat → List Nat) (pngBytes : List Nat)
        (ratioW ratioH : Nat) (chunks : List PngChunk) (ihdrC : PngChunk),
      pngBytes.take 8 = pngSig →
      parsePngChunks pngBytes = .ok chunks →
      chunks.find? (fun c => c.type = ihdrType) = some ihdrC →
      13 ≤ ihdrC.data.length →
      targetHeightOf (readU32d ihdrC.data 0) ratioW ratioH ≤ readU32d ihdrC.data 4 →
      padPng inflate deflate pngBytes ratioW ratioH = .ok none) ∧
    (targetHeightOf 100 3 2 = 67 ∧ 67 - 50 = 17 ∧
      topRowsOf 17 = 9 ∧ bottomRowsOf 17 = 8) := by
  refine ⟨?_, ?_, by decide, by decide, by decide, by decide⟩
  · intro inflate deflate pngBytes ratioW ratioH chunks ihdrC hsig hparse hfind
      h13 hint hdepth hct hlt htlt hall hdef
    obtain ⟨bpp, hbpp⟩ : ∃ bpp, bppOf (ihdrC.data.getD 9 0) = some bpp := by
      rcases hct with h | h | h | h <;> rw [h] <;> exact ⟨_, rfl⟩
    obtain ⟨newData, hcore⟩ := @padPngCore_succeeds inflate deflate chunks
      ratioW ratioH ihdrC bpp hfind h13 hint hdepth hbpp hlt
    have hmem_ihdr : ihdrC ∈ chunks := List.mem_of_find?_eq_some hfind
    have hlen_ihdr : ihdrC.data.length < 4294967296 := (hall ihdrC hmem_ihdr).2.2
    have hnew : ∀ c ∈ rebuildChunks
        (setBytes ihdrC.data 4
          (u32be (targetHeightOf (readU32d ihdrC.data 0) ratioW ratioH)))
        (deflate newData) chunks false,
        c.type.length = 4 ∧ (∀ b ∈ c.type, b < 256) ∧
          c.data.length < 4294967296 := by
      intro c hc
      have htype4h : (ihdrType : List Nat).length = 4 ∧ ∀ b ∈ ihdrType, b < 256 := by
        decide
      have htype4i : (idatType : List Nat).length = 4 ∧ ∀ b ∈ idatType, b < 256 := by
        decide
      rcases mem_rebuildChunks chunks false c hc with h | h | h
      · subst h
        refine ⟨htype4h.1, htype4h.2, ?_⟩
        rw [length_newIhdr (by omega)]
        exact hlen_ihdr
      · subst h
        exact ⟨htype4i.1, htype4i.2, hdef newData⟩
      · exact hall c h
    have hro := parse_buildPng hnew
    have hfind2 := @find?_ihdr_rebuildChunks
      (setBytes ihdrC.data 4
        (u32be (targetHeightOf (readU32d ihdrC.data 0) ratioW ratioH)))
      (deflate newData) chunks false (by rw [hfind]; rfl)
    refine ⟨buildPng (rebuildChunks
      (setBytes ihdrC.data 4
        (u32be (targetHeightOf (readU32d ihdrC.data 0) ratioW ratioH)))
      (deflate newData) chunks false), ?_, ?_⟩
    · unfold padPng
      rw [if_pos hsig, hparse]
      dsimp only
      rw [hcore]
    · unfold declaredDims
      rw [hro]
      dsimp only
      rw [hfind2]
      dsimp only
      rw [newIhdr_width (by omega), newIhdr_height (by omega) htlt]
  · intro inflate deflate pngBytes ratioW ratioH chunks ihdrC hsig hparse hfind
      h13 hge
    unfold padPng
    rw [if_pos hsig, hparse]
    dsimp only
    rw [padPngCore_none_tall hfind h13 hge]

/-- Witness for C1: a concrete 100x50 RGB 8-bit PNG padded at ratio 3:2
reports width 100 and height 67 in its output header, and the planner values
match the spec scenario. -/
theorem c1_pad_header_witness :
    (∃ out, padPng (fun _ => []) (fun _ => [])
        (buildPng [PngChunk.mk ihdrType (u32be 100 ++ u32be 50 ++ [8, 2, 0, 0, 0]),
          PngChunk.mk idatType [0], PngChunk.mk [73, 69, 78, 68] []]) 3 2 =
      .ok (some out) ∧ declaredDims out = some (100, 67)) ∧
    targetHeightOf 100 3 2 = 67 ∧ topRowsOf 17 = 9 ∧ bottomRowsOf 17 = 8 := by
  refine ⟨?_, (c1_pad_header).2.2.1, (c1_pad_header).2.2.2.2.1,
    (c1_pad_header).2.2.2.2.2⟩
  obtain ⟨out, hpad, hdims⟩ := (c1_pad_header).1 (fun _ => []) (fun _ => [])
    (buildPng [PngChunk.mk ihdrType (u32be 100 ++ u32be 50 ++ [8, 2, 0, 0, 0]),
      PngChunk.mk idatType [0], PngChunk.mk [73, 69, 78, 68] []]) 3 2
    [PngChunk.mk ihdrType (u32be 100 ++ u32be 50 ++ [8, 2, 0, 0, 0]),
      PngChunk.mk idatType [0], PngChunk.mk [73, 69, 78, 68] []]
    (PngChunk.mk ihdrType (u32be 100 ++ u32be 50 ++ [8, 2, 0, 0, 0]))
    (by decide)
    (parse_buildPng (by decide))
    (by decide) (by decide) (by decide) (by decide) (by decide) (by decide)
    (by decide) (by decide) (fun data => by simp)
  refine ⟨out, hpad, ?_⟩
  rw [hdims]
  decide
